import Mathlib

set_option maxRecDepth 8000

/-!
Shallow embedding of `torch/csrc/jit/passes/concat_opt.cpp`.

The graph IR is modelled as a single top-level block: an ordered list of
nodes, each with an ordered list of input value ids, one output value id,
an output type and (for `prim::Constant`) an optional integer payload.
The alias oracle (`AliasDb::hasWriters`, `AliasDb::couldMoveBeforeTopologically`)
is external to this file's source slice and is passed in as a function
parameter.  The iteration order of the C++ `std::unordered_set<Node*>`
`concated_outputs_` is not the insertion order; it is modelled as an explicit
reordering function `perm` applied to the insertion-order candidate list.
-/

/-- Node kinds used by the pass (`aten::cat`, `prim::Concat`,
`prim::ListConstruct`, `aten::empty`, `aten::slice`, `aten::copy_`,
`prim::Constant`, and a catch-all for other operations). -/
inductive NKind where
  | atenCat
  | primConcat
  | primListConstruct
  | atenEmpty
  | atenSlice
  | atenCopy
  | primConstant
  | otherKind (k : Nat)
deriving DecidableEq, Repr

/-- Value types: a tensor with optionally known (complete) sizes, plus the
scalar/list types the pass inspects.  `tensor none` is a tensor whose shape
is not (completely) known; `tensor (some l)` is a complete tensor of sizes
`l` (so rank `l.length`). -/
inductive Ty where
  | tensor (sizes : Option (List Int))
  | intTy
  | noneTy
  | intListTy
  | tensorListTy
  | otherTy
deriving DecidableEq, Repr

/-- A graph node: id, kind, ordered input values, the single output value,
its type, and an optional integer payload (for `prim::Constant`). -/
structure GNode where
  nid : Nat
  kind : NKind
  ins : List Nat
  out : Nat
  outTy : Ty
  ival : Option Int
deriving DecidableEq, Repr

/-- The program graph: typed graph inputs, the nodes of the top-level block in
program order, the block outputs, and fresh-id counters used when creating
new values and nodes. -/
structure Graph where
  gins : List (Nat × Ty)
  nodes : List GNode
  gouts : List Nat
  freshV : Nat
  freshN : Nat
deriving DecidableEq, Repr

def Graph.findNode (g : Graph) (i : Nat) : Option GNode :=
  g.nodes.find? (fun n => n.nid = i)

def Graph.producer (g : Graph) (v : Nat) : Option GNode :=
  g.nodes.find? (fun n => n.out = v)

def Graph.typeOf (g : Graph) (v : Nat) : Ty :=
  match g.producer v with
  | some n => n.outTy
  | none => (((g.gins.find? (fun p => p.1 = v)).map Prod.snd).getD Ty.otherTy)

/-- Number of uses of a value: occurrences among node inputs plus block
outputs (the `Return` node's inputs). -/
def Graph.usesOf (g : Graph) (v : Nat) : Nat :=
  (g.nodes.map (fun n => n.ins.count v)).sum + g.gouts.count v

def Graph.hasUses (g : Graph) (v : Nat) : Bool :=
  decide (g.usesOf v ≠ 0)

/-- `Value::replaceAllUsesWith`: rewires every input slot and block output
holding `v` to `w`. -/
def Graph.replaceAllUsesWith (g : Graph) (v w : Nat) : Graph :=
  { g with
    nodes := g.nodes.map (fun n =>
      { n with ins := n.ins.map (fun x => if x = v then w else x) }),
    gouts := g.gouts.map (fun x => if x = v then w else x) }

/-- `Node::destroy`: removes the node from the block. -/
def Graph.destroyNode (g : Graph) (i : Nat) : Graph :=
  { g with nodes := g.nodes.filter (fun n => n.nid ≠ i) }

/-- Inserts the nodes `ns` immediately before the node with id `i`
(appends at the end when `i` is absent, which never happens in the runs
modelled here). -/
def insertListBefore (l : List GNode) (i : Nat) (ns : List GNode) : List GNode :=
  match l with
  | [] => ns
  | n :: rest => if n.nid = i then ns ++ n :: rest else n :: insertListBefore rest i ns

def Graph.insertBefore (g : Graph) (i : Nat) (ns : List GNode) : Graph :=
  { g with nodes := insertListBefore g.nodes i ns }

def Graph.idxOf (g : Graph) (i : Nat) : Nat :=
  g.nodes.findIdx (fun n => n.nid = i)

/-- `Node::isDominatedBy` restricted to a single straight-line block: an
earlier node dominates every later node. -/
def Graph.dominates (g : Graph) (a b : Nat) : Bool :=
  decide (g.idxOf a < g.idxOf b)

/-! ## ConcatCommonInputsEliminator (`concat_opt.cpp` lines 36-213) -/

/-- The deferred state of `ConcatCommonInputsEliminator`: the candidate set
`concated_outputs_` (in insertion order; the C++ `std::unordered_set`
iteration order is applied on top via `perm`), the substitution map
`concats_to_replace_` (in insertion order), and fresh-id counters for
`Graph::create`. -/
structure ElimState where
  cands : List GNode
  toRepl : List (Nat × GNode)
  fv : Nat
  fn : Nat
deriving DecidableEq, Repr

/-- The tensor operands of a variadic concat node (all inputs but the
trailing dimension). -/
def tensorIns (n : GNode) : List Nat := n.ins.dropLast

/-- The trailing dimension input of a variadic concat node. -/
def dimIn (n : GNode) : Nat := n.ins.getLastD 0

/-- Structural "first N-1 operands equal" match with the same dim and the
dominance requirement, exactly the conditions of the first search loop in
`handleCat` (lines 100-122). -/
def frontMatch (g : Graph) (node prev : GNode) : Bool :=
  decide ((tensorIns node).dropLast = tensorIns prev) &&
  decide (dimIn node = dimIn prev) &&
  g.dominates prev.nid node.nid

/-- Structural "last N-1 operands equal" match with the same dim and the
dominance requirement, exactly the conditions of the second search loop in
`handleCat` (lines 144-166). -/
def backMatch (g : Graph) (node prev : GNode) : Bool :=
  decide ((tensorIns node).tail = tensorIns prev) &&
  decide (dimIn node = dimIn prev) &&
  g.dominates prev.nid node.nid

/-- `Graph::create(prim::Concat, inputs)` followed by
`setType(node->output()->type())`. -/
def mkConcat2 (fn : Nat) (fv : Nat) (ins : List Nat) (ty : Ty) : GNode :=
  { nid := fn, kind := NKind.primConcat, ins := ins, out := fv, outTy := ty, ival := none }

/-- `ConcatCommonInputsEliminator::handleCat` (lines 58-171).  `hw` is the
alias oracle `hasWriters`; `perm` is the iteration order of the
`unordered_set` candidate set. -/
def handleCat (hw : Nat → Bool) (perm : List GNode → List GNode) (g : Graph)
    (st : ElimState) (node : GNode) : ElimState :=
  let st1 := if hw node.out then st else { st with cands := st.cands ++ [node] }
  if (tensorIns node).length ≤ 2 then st1
  else
    match (perm st1.cands).find? (fun prev => frontMatch g node prev) with
    | some prev =>
      { st1 with
        toRepl := st1.toRepl ++
          [(node.nid, mkConcat2 st1.fn st1.fv
              [prev.out, (tensorIns node).getLastD 0, dimIn node] node.outTy)],
        fv := st1.fv + 1, fn := st1.fn + 1 }
    | none =>
      match (perm st1.cands).find? (fun prev => backMatch g node prev) with
      | some prev =>
        { st1 with
          toRepl := st1.toRepl ++
            [(node.nid, mkConcat2 st1.fn st1.fv
                [(tensorIns node).headD 0, prev.out, dimIn node] node.outTy)],
          fv := st1.fv + 1, fn := st1.fn + 1 }
      | none => st1

/-- Rewires the inputs of a not-yet-inserted node (uses of a value are
tracked for detached nodes too in the C++ IR). -/
def rewireIns (v w : Nat) (n : GNode) : GNode :=
  { n with ins := n.ins.map (fun x => if x = v then w else x) }

/-- `ConcatCommonInputsEliminator::postprocess` (lines 173-188): for every
recorded substitution, insert the new node before the old one, redirect all
uses, destroy the old node, and report a change.  A
`Value::replaceAllUsesWith` also rewires the inputs of the still-pending
detached replacement nodes; those deferred rewires are carried in `sub` and
applied to each pending node when it is taken up. -/
def applyRepls (g : Graph) (sub : List (Nat × Nat)) : List (Nat × GNode) → Graph × Bool
  | [] => (g, false)
  | (oldId, newN0) :: rest =>
    let newN := sub.foldl (fun n p => rewireIns p.1 p.2 n) newN0
    match g.findNode oldId with
    | some oldN =>
      let g1 := (g.insertBefore oldId [newN]).replaceAllUsesWith oldN.out newN.out
      let g2 := g1.destroyNode oldId
      ((applyRepls g2 (sub ++ [(oldN.out, newN.out)]) rest).1, true)
    | none => ((applyRepls g sub rest).1, true)

def elimInit (g : Graph) : ElimState :=
  { cands := [], toRepl := [], fv := g.freshV, fn := g.freshN }

/-- One traversal step of `handleBlock` (lines 47-56): handle the node when
it is a `prim::Concat`, otherwise leave the state alone. -/
def elimStep (hw : Nat → Bool) (perm : List GNode → List GNode) (g : Graph)
    (st : ElimState) (n : GNode) : ElimState :=
  if n.kind = NKind.primConcat then handleCat hw perm g st n else st

/-- The traversal phase of `ConcatCommonInputsEliminator::run`
(`handleBlock`, lines 47-56): visit nodes in program order and handle each
`prim::Concat`.  The traversal never mutates the graph; all edits are
deferred to `postprocess`. -/
def elimPhase1 (hw : Nat → Bool) (perm : List GNode → List GNode) (g : Graph) : ElimState :=
  g.nodes.foldl (elimStep hw perm g) (elimInit g)

/-- `EliminateConcatCommonInputs` (lines 206-213): traversal followed by
`postprocess`; returns whether any rewrite occurred. -/
def elimRun (hw : Nat → Bool) (perm : List GNode → List GNode) (g : Graph) : Bool × Graph :=
  let st := elimPhase1 hw perm g
  let r := applyRepls g [] st.toRepl
  (r.2, { r.1 with freshV := st.fv, freshN := st.fn })

/-! ## VariadicCatUpdater (`concat_opt.cpp` lines 499-585) -/

/-- `Graph::create(prim::Concat, inputs)` inside
`VariadicCatUpdater::replaceWithVariadicCat`; note that no `setType` is done
there, so the output keeps the default (unshaped) tensor type. -/
def mkVarCat (fn : Nat) (fv : Nat) (ins : List Nat) : GNode :=
  { nid := fn, kind := NKind.primConcat, ins := ins, out := fv,
    outTy := Ty.tensor none, ival := none }

/-- `VariadicCatUpdater::replaceWithVariadicCat` (lines 525-550).  `cm` is
the alias oracle `couldMoveBeforeTopologically`. -/
def replaceWithVariadicCat (cm : Nat → Nat → Bool) (g : Graph) (catId : Nat) : Bool × Graph :=
  match g.findNode catId with
  | none => (false, g)
  | some cat =>
    match g.producer (cat.ins.headD 0) with
    | none => (false, g)
    | some listN =>
      if listN.kind ≠ NKind.primListConstruct then (false, g)
      else if ¬ cm listN.nid catId then (false, g)
      else
        let varC := mkVarCat g.freshN g.freshV (listN.ins ++ [cat.ins.getD 1 0])
        let g1 := (g.insertBefore catId [varC]).replaceAllUsesWith cat.out varC.out
        let g2 := g1.destroyNode catId
        let g3 := if g2.hasUses listN.out then g2 else g2.destroyNode listN.nid
        (true, { g3 with freshV := g.freshV + 1, freshN := g.freshN + 1 })

/-- `VariadicCatUpdater::run` (lines 504-511): collect all `aten::cat` nodes
first (`collectCatNodes`), then fold with
`changed = changed || replaceWithVariadicCat(c)` — note the C++
short-circuit: once `changed` is true, `replaceWithVariadicCat` is no longer
invoked for the remaining collected nodes. -/
def uvcRun (cm : Nat → Nat → Bool) (g : Graph) : Bool × Graph :=
  let catIds := (g.nodes.filter (fun n => n.kind = NKind.atenCat)).map (fun n => n.nid)
  catIds.foldl
    (fun acc c =>
      if acc.1 then acc
      else
        let r := replaceWithVariadicCat cm acc.2 c
        (acc.1 || r.1, r.2))
    (false, g)

/-- One round of the `RemoveListMutationAndUseVariadicCat` while-loop body
(lines 579-583): `RemoveListMutation` (the external collaborator `rlm`)
followed — only when it reported no change, because of the C++
short-circuit `changed_in_last_iter || UseVariadicCat(graph)` — by
`UseVariadicCat`. -/
def rlmRound (rlm : Graph → Bool × Graph) (cm : Nat → Nat → Bool) (g : Graph) : Bool × Graph :=
  let r1 := rlm g
  if r1.1 then (true, r1.2) else uvcRun cm r1.2

/-- The fuelled while-loop of `RemoveListMutationAndUseVariadicCat`
(lines 576-585): repeat rounds while the last round reported a change; the
accumulated `changed` flag is the disjunction of the round flags.  The fuel
models the unbounded C++ loop; termination (fuel-independence for any fuel
above a measure bound) is proved, not assumed. -/
def rlmLoop (rlm : Graph → Bool × Graph) (cm : Nat → Nat → Bool) :
    Nat → Graph → Bool → Bool × Graph
  | 0, g, ch => (ch, g)
  | fuel + 1, g, ch =>
    let r := rlmRound rlm cm g
    if r.1 then rlmLoop rlm cm fuel r.2 true else (ch, r.2)

/-- `RemoveListMutationAndUseVariadicCat` with explicit fuel.
`RemoveListMutation` lives in `passes/remove_mutation.cpp`, outside this
source slice; it is the abstract parameter `rlm`. -/
def rlmDriver (rlm : Graph → Bool × Graph) (cm : Nat → Nat → Bool)
    (fuel : Nat) (g : Graph) : Bool × Graph :=
  rlmLoop rlm cm fuel g false

/-- Number of `aten::cat` nodes in the graph, the termination measure for
the variadic-promotion half of the driver. -/
def catCount (g : Graph) : Nat :=
  (g.nodes.filter (fun n => n.kind = NKind.atenCat)).length

/-! ## ConcatExpander (`concat_opt.cpp` lines 217-495) -/

/-- `ConcatExpander::shapeIsKnown` (lines 360-370): a tensor-typed value
must be a complete tensor of rank at least 1; non-tensor values pass. -/
def shapeIsKnown (g : Graph) (v : Nat) : Bool :=
  match g.typeOf v with
  | Ty.tensor none => false
  | Ty.tensor (some l) => !l.isEmpty
  | _ => true

/-- `ConcatExpander::allShapesAreKnown` (lines 371-384). -/
def allShapesKnown (g : Graph) (n : GNode) : Bool :=
  n.ins.all (fun v => shapeIsKnown g v) && shapeIsKnown g n.out

/-- `constant_as<int64_t>`: the value's producer must be a `prim::Constant`
carrying an integer. -/
def constantAs (g : Graph) (v : Nat) : Option Int :=
  match g.producer v with
  | some p => if p.kind = NKind.primConstant then p.ival else none
  | none => none

/-- The size of tensor value `v` along axis `dim`
(`*cat_inp_tensortype_sizes[cat_dim_value]`, line 336). -/
def extentOf (g : Graph) (dim : Int) (v : Nat) : Int :=
  match g.typeOf v with
  | Ty.tensor (some l) => l.getD dim.toNat 0
  | _ => 0

/-- The per-size `prim::Constant` nodes inserted for the `cat` output buffer
size (lines 304-307), with consecutive fresh value/node ids. -/
def sizeConsts (vc : Nat) (nc : Nat) : List Int → List GNode
  | [] => []
  | s :: rest =>
    { nid := nc, kind := NKind.primConstant, ins := [], out := vc,
      outTy := Ty.intTy, ival := some s } :: sizeConsts (vc + 1) (nc + 1) rest

/-- The per-operand loop of `ConcatExpander::expandCat` (lines 327-353):
for each operand, an `end` constant, an `aten::slice` of the output buffer
covering `[start, end)` along the cat axis, and an `aten::copy_` of the
operand into the slice; the next start index/value is this end
index/value. -/
def emitLoop (g : Graph) (dim : Int) (dimV oneV eOut : Nat) :
    List Nat → Int → Nat → Nat → Nat → List GNode
  | [], _, _, _, _ => []
  | inp :: rest, s0, sV, vc, nc =>
    let e := extentOf g dim inp
    { nid := nc, kind := NKind.primConstant, ins := [], out := vc,
      outTy := Ty.intTy, ival := some (s0 + e) } ::
    { nid := nc + 1, kind := NKind.atenSlice, ins := [eOut, dimV, sV, vc, oneV],
      out := vc + 1, outTy := Ty.tensor none, ival := none } ::
    { nid := nc + 2, kind := NKind.atenCopy, ins := [vc + 1, inp],
      out := vc + 2, outTy := Ty.tensor none, ival := none } ::
    emitLoop g dim dimV oneV eOut rest (s0 + e) vc (vc + 3) (nc + 3)

/-- The full node sequence emitted by `expandCat` before the `cat` node
(lines 296-353): the `None` constant, the constant `1`, one constant per
output size, the size list, the `aten::empty` output buffer, the start
constant `0`, and the per-operand end/slice/copy chunks. -/
def expSegment (g : Graph) (listIns : List Nat) (dim : Int) (dimV : Nat)
    (outSizes : List Int) (v0 : Nat) (n0 : Nat) : List GNode :=
  let k := outSizes.length
  [{ nid := n0, kind := NKind.primConstant, ins := [], out := v0,
     outTy := Ty.noneTy, ival := none },
   { nid := n0 + 1, kind := NKind.primConstant, ins := [], out := v0 + 1,
     outTy := Ty.intTy, ival := some 1 }] ++
  sizeConsts (v0 + 2) (n0 + 2) outSizes ++
  [{ nid := n0 + 2 + k, kind := NKind.primListConstruct,
     ins := List.range' (v0 + 2) k, out := v0 + 2 + k,
     outTy := Ty.intListTy, ival := none },
   { nid := n0 + 3 + k, kind := NKind.atenEmpty,
     ins := [v0 + 2 + k, v0, v0, v0, v0, v0], out := v0 + 3 + k,
     outTy := Ty.tensor none, ival := none },
   { nid := n0 + 4 + k, kind := NKind.primConstant, ins := [], out := v0 + 4 + k,
     outTy := Ty.intTy, ival := some 0 }] ++
  emitLoop g dim dimV (v0 + 1) (v0 + 3 + k) listIns 0 (v0 + 4 + k) (v0 + 5 + k) (n0 + 5 + k)

/-- The deferred state of `ConcatExpander`: the graph, `nodes_to_remove_`,
`replace_uses_with_`, `copies_added_` and `slices_added_`. -/
structure ExpState where
  g : Graph
  toRemove : List Nat
  replUses : List (Nat × Nat)
  copies : List Nat
  slices : List Nat
deriving DecidableEq, Repr

def expInit (g : Graph) : ExpState :=
  { g := g, toRemove := [], replUses := [], copies := [], slices := [] }

/-- The eligibility tests of `ConcatExpander::expandCat` (lines 266-291), in
source order: no writers into the operand list, the list produced by a
`prim::ListConstruct`, all of the node's input/output shapes known, every
operand shape known, and a constant integer cat axis. -/
def expandEligible (g : Graph) (hw : Nat → Bool) (node : GNode) : Bool :=
  !hw (node.ins.headD 0) &&
  (match g.producer (node.ins.headD 0) with
   | none => false
   | some listN =>
     listN.kind = NKind.primListConstruct &&
     allShapesKnown g node &&
     listN.ins.all (fun v => shapeIsKnown g v) &&
     (constantAs g (node.ins.getD 1 0)).isSome)

/-- `ConcatExpander::expandCat` (lines 261-358): if every eligibility check
passes, insert the emitted segment immediately before the `cat` node, record
the use-replacement (old output ↦ buffer) and mark the node for removal;
otherwise return the state entirely unchanged. -/
def expandCat (hw : Nat → Bool) (st : ExpState) (catId : Nat) : ExpState :=
  match st.g.findNode catId with
  | none => st
  | some node =>
    let lv := node.ins.headD 0
    if hw lv then st
    else
      match st.g.producer lv with
      | none => st
      | some listN =>
        if listN.kind ≠ NKind.primListConstruct then st
        else if ¬ allShapesKnown st.g node then st
        else if ¬ listN.ins.all (fun v => shapeIsKnown st.g v) then st
        else
          match constantAs st.g (node.ins.getD 1 0) with
          | none => st
          | some dim =>
            let outSizes := match st.g.typeOf node.out with
              | Ty.tensor (some l) => l
              | _ => []
            let k := outSizes.length
            let m := listN.ins.length
            let v0 := st.g.freshV
            let n0 := st.g.freshN
            let seg := expSegment st.g listN.ins dim (node.ins.getD 1 0) outSizes v0 n0
            let g2 := { st.g.insertBefore catId seg with
                        freshV := v0 + 5 + k + 3 * m, freshN := n0 + 5 + k + 3 * m }
            { g := g2,
              toRemove := st.toRemove ++ [catId],
              replUses := st.replUses ++ [(node.out, v0 + 3 + k)],
              copies := st.copies ++ (List.range m).map (fun j => n0 + 5 + k + 3 * j + 2),
              slices := st.slices ++ (List.range m).map (fun j => n0 + 5 + k + 3 * j + 1) }

/-- `removeCatNodeFromGraph` (lines 20-29): destroy the `cat` node and, when
its operand-list value has no remaining uses, destroy the list-construction
node as well. -/
def removeCatNode (g : Graph) (i : Nat) : Graph :=
  match g.findNode i with
  | none => g
  | some n =>
    let lv := n.ins.headD 0
    let g1 := g.destroyNode i
    if g1.hasUses lv then g1
    else
      match g1.producer lv with
      | some ln => g1.destroyNode ln.nid
      | none => g1

/-- `ConcatExpander::cleanupExpandedCatOps` (lines 386-398): apply all
deferred use-replacements, then remove every marked `cat` node. -/
def cleanupExpanded (st : ExpState) : Graph :=
  let g1 := st.replUses.foldl (fun g p => g.replaceAllUsesWith p.1 p.2) st.g
  st.toRemove.foldl removeCatNode g1

/-- `Node::moveBefore` for one node: reposition it immediately before the
node with id `b`. -/
def moveNodeBefore (g : Graph) (i b : Nat) : Graph :=
  if i = b then g
  else
    match g.findNode i with
    | none => g
    | some n => (g.destroyNode i).insertBefore b [n]

/-- `ConcatExpander::moveBefore` (lines 400-407): recursively move a node's
entire input subgraph, then the node itself, before `b`.  The C++ recursion
terminates because producer chains are acyclic; the fuel (always called with
more fuel than the graph has nodes) models that bound. -/
def moveBeforeRec (g : Graph) (fuel : Nat) (i b : Nat) : Graph :=
  match fuel with
  | 0 => g
  | fuel + 1 =>
    match g.findNode i with
    | none => g
    | some n =>
      let g1 := n.ins.foldl
        (fun g v =>
          match g.producer v with
          | some p => moveBeforeRec g fuel p.nid b
          | none => g) g
      moveNodeBefore g1 i b

/-- One iteration of `ConcatExpander::reuseBuffersInCopies` (lines 451-472):
if the copy's source is produced by an `aten::empty`, move the copy's
destination (with its dependencies) before the source buffer, replace all
uses of the source with the destination, and destroy the source buffer and
the copy.  No other condition — in particular no use-count check on the
source — is tested. -/
def reuseStep (g : Graph) (copyId : Nat) : Graph :=
  match g.findNode copyId with
  | none => g
  | some cpy =>
    let src := cpy.ins.getD 1 0
    let dst := cpy.ins.headD 0
    match g.producer src with
    | none => g
    | some srcN =>
      if srcN.kind ≠ NKind.atenEmpty then g
      else
        match g.producer dst with
        | none => g
        | some dstN =>
          let g1 := moveBeforeRec g (g.nodes.length + 1) dstN.nid srcN.nid
          let g2 := g1.replaceAllUsesWith src dst
          let g3 := g2.destroyNode srcN.nid
          g3.destroyNode copyId

/-- `ConcatExpander::reuseBuffersInCopies` (lines 451-472): fold over
`copies_added_` in insertion order. -/
def reuseBuffers (g : Graph) (copies : List Nat) : Graph :=
  copies.foldl reuseStep g

/-- The traversal phase of `ConcatExpander::run`: expand every `aten::cat`
node of the block in program order (expansion only inserts nodes before the
current one, so the snapshot of `aten::cat` node ids drives the fold). -/
def expPhase1 (hw : Nat → Bool) (g : Graph) : ExpState :=
  (((g.nodes.filter (fun n => n.kind = NKind.atenCat)).map (fun n => n.nid)).foldl
    (expandCat hw) (expInit g))

/-- `ExpandConcatAndEliminateRedundancy` / `ConcatExpander::run`
(lines 222-227, 492-495): expand, clean up, then reuse buffers in copies. -/
def expanderRun (hw : Nat → Bool) (g : Graph) : Graph :=
  let st := expPhase1 hw g
  let g2 := cleanupExpanded st
  reuseBuffers g2 st.copies

/-! ## Observation functions used to state the expansion-structure claims -/

/-- The interval list `[(s, s+e0), (s+e0, s+e0+e1), ...]` of a concatenation
with extents `es` starting at offset `s`. -/
def catRanges (s : Int) : List Int → List (Int × Int)
  | [] => []
  | e :: rest => (s, s + e) :: catRanges (s + e) rest

/-- `isChainB s l t` holds when the intervals of `l` start at `s`, are
contiguous (each interval starts where the previous one ended), and end at
`t`. -/
def isChainB (s : Int) (l : List (Int × Int)) (t : Int) : Bool :=
  match l with
  | [] => decide (s = t)
  | (a, b) :: rest => decide (a = s) && isChainB b rest t

/-- The integer payload of the constant in `l` producing value `v` (0 when
absent; all lookups in the theorems below resolve). -/
def constLookupIn (l : List GNode) (v : Nat) : Int :=
  match l.find? (fun n => n.out = v) with
  | some c => c.ival.getD 0
  | none => 0

/-- The `[start, end)` ranges of the `aten::slice` nodes of `l`, in order,
with the start/end arguments resolved to the constants of `l`. -/
def sliceRangesIn (l : List GNode) : List (Int × Int) :=
  l.filterMap (fun n =>
    if n.kind = NKind.atenSlice then
      some (constLookupIn l (n.ins.getD 2 0), constLookupIn l (n.ins.getD 3 0))
    else none)

/-- The source operands of the `aten::copy_` nodes of `l`, in order. -/
def copySrcsIn (l : List GNode) : List Nat :=
  l.filterMap (fun n =>
    if n.kind = NKind.atenCopy then some (n.ins.getD 1 0) else none)

/-- The destination operands of the `aten::copy_` nodes of `l`, in order. -/
def copyDstsIn (l : List GNode) : List Nat :=
  l.filterMap (fun n =>
    if n.kind = NKind.atenCopy then some (n.ins.headD 0) else none)

/-- The output values of the `aten::slice` nodes of `l`, in order. -/
def sliceOutsIn (l : List GNode) : List Nat :=
  l.filterMap (fun n =>
    if n.kind = NKind.atenSlice then some n.out else none)

/-- The `aten::empty` (allocation) nodes of `l`. -/
def emptiesIn (l : List GNode) : List GNode :=
  l.filter (fun n => n.kind = NKind.atenEmpty)

/-! ## Example graphs and oracles used in concrete theorems

The alias oracles below are the exact oracles `AliasDb` computes for the
graphs they are paired with: none of the example graphs contains any
mutating operation other than the `aten::copy_` nodes the expander itself
emits, so `hasWriters` is false on every pre-existing value and
`couldMoveBeforeTopologically` holds for every pair. -/

/-- `hasWriters` for a graph without mutation. -/
def noWriters : Nat → Bool := fun _ => false

/-- Insertion-order iteration of the candidate set (one possible
`std::unordered_set` iteration order). -/
def idOrder : List GNode → List GNode := id

/-- Reversed iteration of the candidate set (another possible
`std::unordered_set` iteration order). -/
def revOrder : List GNode → List GNode := fun l => l.reverse

/-- `couldMoveBeforeTopologically` for a graph without mutation. -/
def alwaysMovable : Nat → Nat → Bool := fun _ _ => true

/-- The empty graph. -/
def gEmptyGraph : Graph :=
  { gins := [], nodes := [], gouts := [], freshV := 0, freshN := 0 }

/-- Three variadic concats: `%21 = Concat(%1,%2,%9)`,
`%22 = Concat(%1,%2,%3,%9)`, `%23 = Concat(%21,%3,%4,%9)`.  The first run
rewrites node 11 to `Concat(%21,%3,%9)`; that replacement is a new
structural match for node 12's first two operands, so a second run rewrites
again. -/
def gChainCats : Graph :=
  { gins := [(1, Ty.tensor none), (2, Ty.tensor none), (3, Ty.tensor none),
             (4, Ty.tensor none), (9, Ty.intTy)],
    nodes :=
      [ { nid := 10, kind := NKind.primConcat, ins := [1, 2, 9], out := 21,
          outTy := Ty.tensor none, ival := none },
        { nid := 11, kind := NKind.primConcat, ins := [1, 2, 3, 9], out := 22,
          outTy := Ty.tensor none, ival := none },
        { nid := 12, kind := NKind.primConcat, ins := [21, 3, 4, 9], out := 23,
          outTy := Ty.tensor none, ival := none } ],
    gouts := [22, 23], freshV := 100, freshN := 50 }

/-- A 3-operand concat (node 11) that gets rewritten, and a 2-operand concat
(node 13) that consumes the rewritten node's output `%22`. -/
def gSmallConsumer : Graph :=
  { gins := [(1, Ty.tensor none), (2, Ty.tensor none), (3, Ty.tensor none),
             (5, Ty.tensor none), (9, Ty.intTy)],
    nodes :=
      [ { nid := 10, kind := NKind.primConcat, ins := [1, 2, 9], out := 21,
          outTy := Ty.tensor none, ival := none },
        { nid := 11, kind := NKind.primConcat, ins := [1, 2, 3, 9], out := 22,
          outTy := Ty.tensor none, ival := none },
        { nid := 13, kind := NKind.primConcat, ins := [22, 5, 9], out := 24,
          outTy := Ty.tensor none, ival := none } ],
    gouts := [23, 24], freshV := 100, freshN := 50 }

/-- Two structurally identical candidates (nodes 10 and 14, both
`Concat(%1,%2,%9)`) followed by `Concat(%1,%2,%3,%9)`: which candidate is
used depends on the candidate-set iteration order. -/
def gDupCands : Graph :=
  { gins := [(1, Ty.tensor none), (2, Ty.tensor none), (3, Ty.tensor none), (9, Ty.intTy)],
    nodes :=
      [ { nid := 10, kind := NKind.primConcat, ins := [1, 2, 9], out := 21,
          outTy := Ty.tensor none, ival := none },
        { nid := 14, kind := NKind.primConcat, ins := [1, 2, 9], out := 25,
          outTy := Ty.tensor none, ival := none },
        { nid := 11, kind := NKind.primConcat, ins := [1, 2, 3, 9], out := 22,
          outTy := Ty.tensor none, ival := none } ],
    gouts := [21, 25, 22], freshV := 100, freshN := 50 }

/-- Nested list-form concats `%31 = cat([%1,%2], 0)`,
`%33 = cat([%31,%3], 0)` with complete shapes; the inner result `%31` is
also a graph output, so after expansion the inner buffer has uses besides
the outer copy. -/
def gNestedCats : Graph :=
  { gins := [(1, Ty.tensor (some [2])), (2, Ty.tensor (some [3])),
             (3, Ty.tensor (some [4]))],
    nodes :=
      [ { nid := 10, kind := NKind.primConstant, ins := [], out := 9,
          outTy := Ty.intTy, ival := some 0 },
        { nid := 11, kind := NKind.primListConstruct, ins := [1, 2], out := 30,
          outTy := Ty.tensorListTy, ival := none },
        { nid := 12, kind := NKind.atenCat, ins := [30, 9], out := 31,
          outTy := Ty.tensor (some [5]), ival := none },
        { nid := 13, kind := NKind.primListConstruct, ins := [31, 3], out := 32,
          outTy := Ty.tensorListTy, ival := none },
        { nid := 14, kind := NKind.atenCat, ins := [32, 9], out := 33,
          outTy := Ty.tensor (some [9]), ival := none } ],
    gouts := [33, 31], freshV := 100, freshN := 100 }

/-- Two independent eligible list-form concats (nodes 21 and 23), each fed
by its own `prim::ListConstruct`, in a mutation-free graph. -/
def gTwoVarCats : Graph :=
  { gins := [(1, Ty.tensor none), (2, Ty.tensor none), (3, Ty.tensor none),
             (4, Ty.tensor none), (9, Ty.intTy)],
    nodes :=
      [ { nid := 20, kind := NKind.primListConstruct, ins := [1, 2], out := 30,
          outTy := Ty.tensorListTy, ival := none },
        { nid := 21, kind := NKind.atenCat, ins := [30, 9], out := 31,
          outTy := Ty.tensor none, ival := none },
        { nid := 22, kind := NKind.primListConstruct, ins := [3, 4], out := 32,
          outTy := Ty.tensorListTy, ival := none },
        { nid := 23, kind := NKind.atenCat, ins := [32, 9], out := 33,
          outTy := Ty.tensor none, ival := none } ],
    gouts := [31, 33], freshV := 100, freshN := 50 }

/-- A single fully eligible `cat([%1,%2,%3], axis=1)` with operand shapes
`[2,3]`, `[2,4]`, `[2,5]` and output shape `[2,12]`. -/
def gEligibleCat : Graph :=
  { gins := [(1, Ty.tensor (some [2, 3])), (2, Ty.tensor (some [2, 4])),
             (3, Ty.tensor (some [2, 5]))],
    nodes :=
      [ { nid := 10, kind := NKind.primConstant, ins := [], out := 9,
          outTy := Ty.intTy, ival := some 1 },
        { nid := 11, kind := NKind.primListConstruct, ins := [1, 2, 3], out := 30,
          outTy := Ty.tensorListTy, ival := none },
        { nid := 12, kind := NKind.atenCat, ins := [30, 9], out := 31,
          outTy := Ty.tensor (some [2, 12]), ival := none } ],
    gouts := [31], freshV := 100, freshN := 200 }

/-- A minimal graph with an `aten::copy_` (node 3) whose source `%5` is
produced by an `aten::empty` (node 1) that has a second consumer (node 4):
used to witness that the fusion step needs no use-count condition. -/
def gFuseTiny : Graph :=
  { gins := [(6, Ty.tensor none)],
    nodes :=
      [ { nid := 1, kind := NKind.atenEmpty, ins := [], out := 5,
          outTy := Ty.tensor none, ival := none },
        { nid := 2, kind := NKind.otherKind 0, ins := [], out := 7,
          outTy := Ty.tensor none, ival := none },
        { nid := 3, kind := NKind.atenCopy, ins := [7, 5], out := 8,
          outTy := Ty.tensor none, ival := none },
        { nid := 4, kind := NKind.otherKind 1, ins := [5], out := 9,
          outTy := Ty.tensor none, ival := none } ],
    gouts := [9], freshV := 20, freshN := 20 }

/-! ## General lemmas about the eliminator -/

theorem elimFold_no_concat (hw : Nat → Bool) (perm : List GNode → List GNode)
    (g : Graph) :
    ∀ (l : List GNode) (st : ElimState), (∀ n ∈ l, n.kind ≠ NKind.primConcat) →
      l.foldl (elimStep hw perm g) st = st := by
  intro l
  induction l with
  | nil => intro st _; rfl
  | cons a t ih =>
    intro st h
    have ha : ¬ a.kind = NKind.primConcat := h a (List.mem_cons_self a t)
    simp only [List.foldl_cons, elimStep, if_neg ha]
    exact ih st (fun n hn => h n (List.mem_cons_of_mem a hn))

theorem applyRepls_snd_false {g : Graph} {sub : List (Nat × Nat)}
    {l : List (Nat × GNode)} (h : (applyRepls g sub l).2 = false) : l = [] := by
  cases l with
  | nil => rfl
  | cons p rest =>
    exfalso
    obtain ⟨oldId, newN0⟩ := p
    unfold applyRepls at h
    dsimp only at h
    cases hf : g.findNode oldId <;> simp only [hf] at h <;> simp at h

theorem st1_fields (hw : Nat → Bool) (st : ElimState) (node : GNode) :
    ((if hw node.out then st else { st with cands := st.cands ++ [node] } : ElimState).toRepl
        = st.toRepl) ∧
    ((if hw node.out then st else { st with cands := st.cands ++ [node] } : ElimState).fv
        = st.fv) ∧
    ((if hw node.out then st else { st with cands := st.cands ++ [node] } : ElimState).fn
        = st.fn) := by
  split <;> exact ⟨rfl, rfl, rfl⟩

theorem handleCat_spec (hw : Nat → Bool) (perm : List GNode → List GNode)
    (g : Graph) (st : ElimState) (node : GNode) :
    ∃ t : List (Nat × GNode),
      (handleCat hw perm g st node).toRepl = st.toRepl ++ t ∧
      (handleCat hw perm g st node).fv = st.fv + t.length ∧
      (handleCat hw perm g st node).fn = st.fn + t.length ∧
      ∀ p ∈ t, p.1 = node.nid ∧ 2 < (tensorIns node).length ∧
        p.2.nid = st.fn ∧ p.2.out = st.fv := by
  obtain ⟨h1, h2, h3⟩ := st1_fields hw st node
  unfold handleCat
  dsimp only
  generalize hg :
    (if hw node.out then st else { st with cands := st.cands ++ [node] } : ElimState) = st1 at *
  split
  · exact ⟨[], by simp [h1], by simp [h2], by simp [h3], by simp⟩
  next hlen =>
    split
    next prev hfind =>
      refine ⟨[(node.nid, mkConcat2 st1.fn st1.fv
          [prev.out, (tensorIns node).getLastD 0, dimIn node] node.outTy)],
        by simp [h1], by simp [h2], by simp [h3], ?_⟩
      intro p hp
      simp only [List.mem_singleton] at hp
      subst hp
      exact ⟨rfl, by omega, by simp [mkConcat2, h3], by simp [mkConcat2, h2]⟩
    next hfind =>
      split
      next prev hfind2 =>
        refine ⟨[(node.nid, mkConcat2 st1.fn st1.fv
            [(tensorIns node).headD 0, prev.out, dimIn node] node.outTy)],
          by simp [h1], by simp [h2], by simp [h3], ?_⟩
        intro p hp
        simp only [List.mem_singleton] at hp
        subst hp
        exact ⟨rfl, by omega, by simp [mkConcat2, h3], by simp [mkConcat2, h2]⟩
      next hfind2 =>
        exact ⟨[], by simp [h1], by simp [h2], by simp [h3], by simp⟩

theorem elimFold_inv (hw : Nat → Bool) (perm : List GNode → List GNode) (g : Graph) :
    ∀ (l : List GNode) (st : ElimState),
      (∀ n ∈ l, n ∈ g.nodes) →
      (st.fv = g.freshV + st.toRepl.length ∧ st.fn = g.freshN + st.toRepl.length ∧
        ∀ p ∈ st.toRepl, (∃ m ∈ g.nodes, m.nid = p.1 ∧ 2 < (tensorIns m).length) ∧
          g.freshN ≤ p.2.nid) →
      ((l.foldl (elimStep hw perm g) st).fv
          = g.freshV + (l.foldl (elimStep hw perm g) st).toRepl.length ∧
        (l.foldl (elimStep hw perm g) st).fn
          = g.freshN + (l.foldl (elimStep hw perm g) st).toRepl.length ∧
        ∀ p ∈ (l.foldl (elimStep hw perm g) st).toRepl,
          (∃ m ∈ g.nodes, m.nid = p.1 ∧ 2 < (tensorIns m).length) ∧
          g.freshN ≤ p.2.nid) := by
  intro l
  induction l with
  | nil => intro st _ hst; exact hst
  | cons a t ih =>
    intro st hmem hst
    simp only [List.foldl_cons]
    by_cases ha : a.kind = NKind.primConcat
    · rw [elimStep, if_pos ha]
      refine ih (handleCat hw perm g st a) (fun n hn => hmem n (List.mem_cons_of_mem a hn)) ?_
      obtain ⟨u, hu1, hu2, hu3, hu4⟩ := handleCat_spec hw perm g st a
      obtain ⟨hv, hn, hp⟩ := hst
      refine ⟨by rw [hu1, hu2, hv, List.length_append, Nat.add_assoc],
              by rw [hu1, hu3, hn, List.length_append, Nat.add_assoc], ?_⟩
      intro p hpmem
      rw [hu1] at hpmem
      rcases List.mem_append.mp hpmem with h | h
      · exact hp p h
      · obtain ⟨e1, e2, e3, _⟩ := hu4 p h
        exact ⟨⟨a, hmem a (List.mem_cons_self a t), e1.symm, e2⟩, by rw [e3, hn]; exact Nat.le_add_right _ _⟩
    · rw [elimStep, if_neg ha]
      exact ih st (fun n hn => hmem n (List.mem_cons_of_mem a hn)) hst

theorem elimPhase1_spec (hw : Nat → Bool) (perm : List GNode → List GNode) (g : Graph) :
    (elimPhase1 hw perm g).fv = g.freshV + (elimPhase1 hw perm g).toRepl.length ∧
    (elimPhase1 hw perm g).fn = g.freshN + (elimPhase1 hw perm g).toRepl.length ∧
    ∀ p ∈ (elimPhase1 hw perm g).toRepl,
      (∃ m ∈ g.nodes, m.nid = p.1 ∧ 2 < (tensorIns m).length) ∧ g.freshN ≤ p.2.nid :=
  elimFold_inv hw perm g g.nodes (elimInit g) (fun _ hn => hn)
    ⟨by simp [elimInit], by simp [elimInit], by simp [elimInit]⟩

/-! ## General lemmas about the variadic promoter -/

theorem replaceWVC_cases (cm : Nat → Nat → Bool) (g : Graph) (c : Nat) :
    replaceWithVariadicCat cm g c = (false, g) ∨ (replaceWithVariadicCat cm g c).1 = true := by
  unfold replaceWithVariadicCat
  split
  · exact Or.inl rfl
  · split
    · exact Or.inl rfl
    · split
      · exact Or.inl rfl
      · split
        · exact Or.inl rfl
        · exact Or.inr rfl

theorem uvcFold_false (cm : Nat → Nat → Bool) :
    ∀ (ids : List Nat) (acc : Bool × Graph),
      ((ids.foldl (fun acc c =>
          if acc.1 then acc
          else
            let r := replaceWithVariadicCat cm acc.2 c
            (acc.1 || r.1, r.2)) acc).1 = false) →
      ids.foldl (fun acc c =>
          if acc.1 then acc
          else
            let r := replaceWithVariadicCat cm acc.2 c
            (acc.1 || r.1, r.2)) acc = acc := by
  intro ids
  induction ids with
  | nil => intro acc _; rfl
  | cons c rest ih =>
    intro acc hfin
    simp only [List.foldl_cons] at hfin ⊢
    by_cases hacc : acc.1
    · rw [if_pos hacc] at hfin ⊢
      exact ih acc hfin
    · rw [if_neg hacc] at hfin ⊢
      have hstep := ih _ hfin
      rw [hstep] at hfin ⊢
      rcases replaceWVC_cases cm acc.2 c with h | h
      · rw [h]
        simp
      · exfalso
        simp [h] at hfin

theorem uvcRun_false_unchanged {cm : Nat → Nat → Bool} {g : Graph}
    (h : (uvcRun cm g).1 = false) : uvcRun cm g = (false, g) := by
  unfold uvcRun at h ⊢
  exact uvcFold_false cm _ (false, g) h

/-! ## Claims -/

/-- C1.  The claim states that a single `VariadicCatUpdater::run` call
processes every collected `aten::cat` node.  The code's fold
`changed = changed || replaceWithVariadicCat(c)` (line 508) short-circuits
after the first successful replacement, so on `gTwoVarCats` — two eligible
`aten::cat` nodes (21 and 23), each fed by its own `prim::ListConstruct`, in
a mutation-free graph — the run reports a change, destroys node 21, but
leaves node 23 (and its list node 22) completely untouched as an
`aten::cat`. -/
theorem claim1_variadic_promoter_processes_only_first :
    (uvcRun alwaysMovable gTwoVarCats).1 = true ∧
    (uvcRun alwaysMovable gTwoVarCats).2.findNode 21 = none ∧
    ((uvcRun alwaysMovable gTwoVarCats).2.findNode 23).map GNode.kind
        = some NKind.atenCat ∧
    ((uvcRun alwaysMovable gTwoVarCats).2.findNode 23).map GNode.ins
        = some [32, 9] ∧
    ((uvcRun alwaysMovable gTwoVarCats).2.findNode 22).map GNode.kind
        = some NKind.primListConstruct := by decide

/-- C2, counterexample.  On `gChainCats` the first
`EliminateConcatCommonInputs` call rewrites node 11 into
`Concat(%21, %3, %9)`; on the second call that replacement is a new
dominating structural match for node 12's leading operands, so the second
call reports `true` and rewrites again — the claim says the second call
must return `false`. -/
theorem claim2_second_call_reports_change :
    (elimRun noWriters idOrder gChainCats).1 = true ∧
    (elimRun noWriters idOrder ((elimRun noWriters idOrder gChainCats).2)).1 = true := by
  decide

/-- C2, amended.  What does hold: a call of either pass that returns `false`
has performed no mutation, and an immediate second call then also returns
`false` with no further mutation.  (In general a second call after a
`true`-returning call may report further changes.) -/
theorem claim2_false_call_is_fixpoint (hw : Nat → Bool)
    (perm : List GNode → List GNode) (cm : Nat → Nat → Bool) (g1 g2 : Graph) :
    ((elimRun hw perm g1).1 = false →
      (elimRun hw perm g1).2 = g1 ∧
      elimRun hw perm ((elimRun hw perm g1).2) = elimRun hw perm g1) ∧
    ((uvcRun cm g2).1 = false →
      (uvcRun cm g2).2 = g2 ∧
      uvcRun cm ((uvcRun cm g2).2) = uvcRun cm g2) := by
  constructor
  · intro h
    have hrepl : (elimPhase1 hw perm g1).toRepl = [] := applyRepls_snd_false h
    obtain ⟨hfv, hfn, _⟩ := elimPhase1_spec hw perm g1
    rw [hrepl] at hfv hfn
    simp only [List.length_nil, Nat.add_zero] at hfv hfn
    have h2 : (elimRun hw perm g1).2 = g1 := by
      show ({ (applyRepls g1 [] (elimPhase1 hw perm g1).toRepl).1 with
              freshV := (elimPhase1 hw perm g1).fv,
              freshN := (elimPhase1 hw perm g1).fn }) = g1
      rw [hrepl, hfv, hfn]
      rfl
    refine ⟨h2, ?_⟩
    rw [h2]
  · intro h
    have h2 : uvcRun cm g2 = (false, g2) := uvcRun_false_unchanged h
    rw [h2]
    exact ⟨rfl, h2⟩

/-- Witness for the amended C2 at the empty graph: both passes return
`false` on it and leave it untouched, and so does the second call. -/
theorem claim2_false_call_is_fixpoint_witness :
    (elimRun noWriters idOrder gEmptyGraph).2 = gEmptyGraph ∧
    (uvcRun alwaysMovable gEmptyGraph).2 = gEmptyGraph :=
  ⟨((claim2_false_call_is_fixpoint noWriters idOrder alwaysMovable
      gEmptyGraph gEmptyGraph).1 (by decide)).1,
   ((claim2_false_call_is_fixpoint noWriters idOrder alwaysMovable
      gEmptyGraph gEmptyGraph).2 (by decide)).1⟩

/-- C5, counterexample.  On `gDupCands` the candidates 10 (output `%21`) and
14 (output `%25`) are structurally identical and both dominate node 11.
`concated_outputs_` is a `std::unordered_set<Node*>`, whose iteration order
is unconstrained pointer-hash order, not traversal/collection order; under
the (legal) reversed iteration order the eliminator picks candidate 14,
while only under insertion order it picks the traversal-first candidate
10.  The claim's "first one found in traversal/collection order" is
therefore not what the code guarantees. -/
theorem claim5_candidate_not_in_collection_order :
    ((elimPhase1 noWriters revOrder gDupCands).toRepl.map (fun p => (p.1, p.2.ins))
        = [(11, [25, 3, 9])]) ∧
    ((elimPhase1 noWriters idOrder gDupCands).toRepl.map (fun p => (p.1, p.2.ins))
        = [(11, [21, 3, 9])]) := by decide

/-- C9, counterexample.  The 2-tensor-operand concat node 13 of
`gSmallConsumer` is never substituted, but it is not "left unchanged": the
pass rewrites node 11 and thereby rewires node 13's first operand from
`%22` to the replacement's output `%100`. -/
theorem claim9_small_cat_inputs_rewired :
    ((gSmallConsumer.findNode 13).map GNode.ins = some [22, 5, 9]) ∧
    (((elimRun noWriters idOrder gSmallConsumer).2.findNode 13).map GNode.ins
        = some [100, 5, 9]) := by decide

/-- C3, counterexample.  In `gNestedCats` the inner concat's result `%31` is
also a graph output, so after expansion and cleanup the inner buffer `%104`
(an `aten::empty`) has 4 uses: its own two slices, the outer copy (node
120), and the graph output.  `reuseBuffersInCopies` checks only that the
copy's source is produced by an `aten::empty` and fuses anyway, destroying
buffer 104 — the claim says a write whose allocation source has other
remaining uses is never fused. -/
theorem claim3_fusion_fires_despite_other_uses :
    ((cleanupExpanded (expPhase1 noWriters gNestedCats)).usesOf 104 = 4) ∧
    (((cleanupExpanded (expPhase1 noWriters gNestedCats)).producer 104).map GNode.kind
        = some NKind.atenEmpty) ∧
    ((expPhase1 noWriters gNestedCats).copies.contains 120 = true) ∧
    (((cleanupExpanded (expPhase1 noWriters gNestedCats)).findNode 120).map GNode.ins
        = some [119, 104]) ∧
    ((expanderRun noWriters gNestedCats).findNode 104 = none) ∧
    ((emptiesIn (expanderRun noWriters gNestedCats).nodes).length = 1) := by decide

/-- C10.  The eliminator's traversal dispatches only on `prim::Concat`
(line 49); on a graph whose nodes contain no `prim::Concat` — in particular
when all concatenations are list-input `aten::cat` nodes — it returns
`false` and leaves the graph unchanged. -/
theorem claim10_eliminator_ignores_listform_cats (hw : Nat → Bool)
    (perm : List GNode → List GNode) (g : Graph)
    (h : ∀ n ∈ g.nodes, n.kind ≠ NKind.primConcat) :
    elimRun hw perm g = (false, g) := by
  unfold elimRun elimPhase1
  rw [elimFold_no_concat hw perm g g.nodes (elimInit g) h]
  rfl

/-- Witness for C10: `gTwoVarCats` contains only `aten::cat` concatenations
(plus list constructions), and the eliminator is the identity on it. -/
theorem claim10_eliminator_ignores_listform_cats_witness :
    (∀ n ∈ gTwoVarCats.nodes, n.kind ≠ NKind.primConcat) ∧
    elimRun noWriters idOrder gTwoVarCats = (false, gTwoVarCats) :=
  ⟨by decide, claim10_eliminator_ignores_listform_cats noWriters idOrder gTwoVarCats (by decide)⟩

/-! ## Characterization of the candidate search in `handleCat` -/

theorem handleCat_cases (hw : Nat → Bool) (perm : List GNode → List GNode)
    (g : Graph) (st : ElimState) (node : GNode)
    (hlen : 2 < (tensorIns node).length) :
    (∀ prev, (perm (if hw node.out then st.cands else st.cands ++ [node])).find?
        (fun p => frontMatch g node p) = some prev →
      (handleCat hw perm g st node).toRepl = st.toRepl ++
        [(node.nid, mkConcat2 st.fn st.fv
            [prev.out, (tensorIns node).getLastD 0, dimIn node] node.outTy)]) ∧
    ((perm (if hw node.out then st.cands else st.cands ++ [node])).find?
        (fun p => frontMatch g node p) = none →
      ∀ prev, (perm (if hw node.out then st.cands else st.cands ++ [node])).find?
          (fun p => backMatch g node p) = some prev →
        (handleCat hw perm g st node).toRepl = st.toRepl ++
          [(node.nid, mkConcat2 st.fn st.fv
              [(tensorIns node).headD 0, prev.out, dimIn node] node.outTy)]) ∧
    ((perm (if hw node.out then st.cands else st.cands ++ [node])).find?
        (fun p => frontMatch g node p) = none →
      (perm (if hw node.out then st.cands else st.cands ++ [node])).find?
          (fun p => backMatch g node p) = none →
      (handleCat hw perm g st node).toRepl = st.toRepl) := by
  obtain ⟨h1, h2, h3⟩ := st1_fields hw st node
  have hc : (if hw node.out then st else { st with cands := st.cands ++ [node] } : ElimState).cands
      = (if hw node.out then st.cands else st.cands ++ [node]) := by
    split <;> rfl
  unfold handleCat
  dsimp only
  rw [if_neg (by omega : ¬ (tensorIns node).length ≤ 2), hc, h1, h2, h3]
  refine ⟨?_, ?_, ?_⟩
  · intro prev hfind
    rw [hfind]
  · intro hnone prev hfind2
    rw [hnone, hfind2]
  · intro hnone hnone2
    rw [hnone, hnone2]
    exact h1

/-- C4.  For a `prim::Concat` node with more than 2 tensor operands: if some
previously recorded candidate prefix-matches (same tensor operands with the
last one removed, same dim value) and dominates the node, the eliminator
records for it a replacement that is exactly a two-operand
`prim::Concat(prev_output, last_operand, dim)`; if no such prefix match
exists and some recorded candidate suffix-matches (operands with the first
removed) and dominates, the recorded replacement is exactly
`prim::Concat(first_operand, prev_output, dim)`.  The structural match, dim
equality and dominance are bundled in `frontMatch`/`backMatch`, exactly the
conditions of lines 107-113 and 151-157; the searched set is the candidate
set at the time the node is handled (including the just-inserted node
itself, which can never match), and `postprocess` (`applyRepls`) later
inserts the recorded node before the old one, rewires the uses and destroys
the old node. -/
theorem claim4_common_input_replacement_form (hw : Nat → Bool)
    (perm : List GNode → List GNode) (g : Graph) (st : ElimState) (node : GNode)
    (hperm : ∀ (l : List GNode) (x : GNode), x ∈ perm l ↔ x ∈ l)
    (hlen : 2 < (tensorIns node).length) :
    ((∃ prev ∈ (if hw node.out then st.cands else st.cands ++ [node]),
        frontMatch g node prev = true) →
      ∃ prev ∈ (if hw node.out then st.cands else st.cands ++ [node]),
        frontMatch g node prev = true ∧
        (handleCat hw perm g st node).toRepl = st.toRepl ++
          [(node.nid, mkConcat2 st.fn st.fv
              [prev.out, (tensorIns node).getLastD 0, dimIn node] node.outTy)]) ∧
    ((¬ ∃ prev ∈ (if hw node.out then st.cands else st.cands ++ [node]),
        frontMatch g node prev = true) →
      (∃ prev ∈ (if hw node.out then st.cands else st.cands ++ [node]),
        backMatch g node prev = true) →
      ∃ prev ∈ (if hw node.out then st.cands else st.cands ++ [node]),
        backMatch g node prev = true ∧
        (handleCat hw perm g st node).toRepl = st.toRepl ++
          [(node.nid, mkConcat2 st.fn st.fv
              [(tensorIns node).headD 0, prev.out, dimIn node] node.outTy)]) := by
  obtain ⟨hcase1, hcase2, _⟩ := handleCat_cases hw perm g st node hlen
  constructor
  · rintro ⟨prev, hmem, hmatch⟩
    have hsome : ((perm (if hw node.out then st.cands else st.cands ++ [node])).find?
        (fun p => frontMatch g node p)).isSome :=
      List.find?_isSome.mpr ⟨prev, (hperm _ prev).mpr hmem, hmatch⟩
    obtain ⟨found, hfound⟩ := Option.isSome_iff_exists.mp hsome
    refine ⟨found, (hperm _ found).mp (List.mem_of_find?_eq_some hfound),
      List.find?_some hfound, hcase1 found hfound⟩
  · rintro hno ⟨prev, hmem, hmatch⟩
    have hnone : (perm (if hw node.out then st.cands else st.cands ++ [node])).find?
        (fun p => frontMatch g node p) = none :=
      List.find?_eq_none.mpr (fun x hx hpx => hno ⟨x, (hperm _ x).mp hx, hpx⟩)
    have hsome : ((perm (if hw node.out then st.cands else st.cands ++ [node])).find?
        (fun p => backMatch g node p)).isSome :=
      List.find?_isSome.mpr ⟨prev, (hperm _ prev).mpr hmem, hmatch⟩
    obtain ⟨found, hfound⟩ := Option.isSome_iff_exists.mp hsome
    refine ⟨found, (hperm _ found).mp (List.mem_of_find?_eq_some hfound),
      List.find?_some hfound, hcase2 hnone found hfound⟩

/-- Witness for C4 on the spec's own prefix example: in `gChainCats`, when
node 11 (`Concat(%1,%2,%3,%9)`) is handled, candidate node 10
(`Concat(%1,%2,%9)`) prefix-matches and dominates, and the recorded
replacement is `Concat(%21, %3, %9)`. -/
theorem claim4_common_input_replacement_form_witness :
    ∃ prev ∈ (if noWriters 22 then
        [({ nid := 10, kind := NKind.primConcat, ins := [1, 2, 9], out := 21,
            outTy := Ty.tensor none, ival := none } : GNode)]
      else
        [({ nid := 10, kind := NKind.primConcat, ins := [1, 2, 9], out := 21,
            outTy := Ty.tensor none, ival := none } : GNode)] ++
        [{ nid := 11, kind := NKind.primConcat, ins := [1, 2, 3, 9], out := 22,
           outTy := Ty.tensor none, ival := none }]),
      frontMatch gChainCats
        { nid := 11, kind := NKind.primConcat, ins := [1, 2, 3, 9], out := 22,
          outTy := Ty.tensor none, ival := none } prev = true ∧
      (handleCat noWriters idOrder gChainCats
        { cands := [{ nid := 10, kind := NKind.primConcat, ins := [1, 2, 9], out := 21,
                      outTy := Ty.tensor none, ival := none }],
          toRepl := [], fv := 100, fn := 50 }
        { nid := 11, kind := NKind.primConcat, ins := [1, 2, 3, 9], out := 22,
          outTy := Ty.tensor none, ival := none }).toRepl = [] ++
        [(11, mkConcat2 50 100 [prev.out, 3, 9] (Ty.tensor none))] :=
  (claim4_common_input_replacement_form noWriters idOrder gChainCats
      { cands := [{ nid := 10, kind := NKind.primConcat, ins := [1, 2, 9], out := 21,
                    outTy := Ty.tensor none, ival := none }],
        toRepl := [], fv := 100, fn := 50 }
      { nid := 11, kind := NKind.primConcat, ins := [1, 2, 3, 9], out := 22,
        outTy := Ty.tensor none, ival := none }
      (fun _ _ => Iff.rfl) (by decide)).1 (by decide)

/-- C5, amended.  The search characterization that does hold: all prefix
matches are searched before any suffix match is considered, and the
candidate used is the first dominating match in the candidate set's
iteration order (`List.find?` over `perm` of the insertion-order set).
Since `concated_outputs_` is a `std::unordered_set<Node*>`, that iteration
order is unconstrained pointer-hash order — not, as the claim states,
traversal/collection order. -/
theorem claim5_search_order_characterization (hw : Nat → Bool)
    (perm : List GNode → List GNode) (g : Graph) (st : ElimState) (node : GNode)
    (hlen : 2 < (tensorIns node).length) :
    (∀ prev, (perm (if hw node.out then st.cands else st.cands ++ [node])).find?
        (fun p => frontMatch g node p) = some prev →
      (handleCat hw perm g st node).toRepl = st.toRepl ++
        [(node.nid, mkConcat2 st.fn st.fv
            [prev.out, (tensorIns node).getLastD 0, dimIn node] node.outTy)]) ∧
    ((perm (if hw node.out then st.cands else st.cands ++ [node])).find?
        (fun p => frontMatch g node p) = none →
      ∀ prev, (perm (if hw node.out then st.cands else st.cands ++ [node])).find?
          (fun p => backMatch g node p) = some prev →
        (handleCat hw perm g st node).toRepl = st.toRepl ++
          [(node.nid, mkConcat2 st.fn st.fv
              [(tensorIns node).headD 0, prev.out, dimIn node] node.outTy)]) ∧
    ((perm (if hw node.out then st.cands else st.cands ++ [node])).find?
        (fun p => frontMatch g node p) = none →
      (perm (if hw node.out then st.cands else st.cands ++ [node])).find?
          (fun p => backMatch g node p) = none →
      (handleCat hw perm g st node).toRepl = st.toRepl) :=
  handleCat_cases hw perm g st node hlen

/-- Witness for the amended C5: under the reversed iteration order on
`gDupCands`, the first dominating prefix match in iteration order is the
later-collected candidate 14, and the recorded replacement uses its output
`%25`. -/
theorem claim5_search_order_characterization_witness :
    (handleCat noWriters revOrder gDupCands
      { cands := [{ nid := 10, kind := NKind.primConcat, ins := [1, 2, 9], out := 21,
                    outTy := Ty.tensor none, ival := none },
                  { nid := 14, kind := NKind.primConcat, ins := [1, 2, 9], out := 25,
                    outTy := Ty.tensor none, ival := none }],
        toRepl := [], fv := 100, fn := 50 }
      { nid := 11, kind := NKind.primConcat, ins := [1, 2, 3, 9], out := 22,
        outTy := Ty.tensor none, ival := none }).toRepl = [] ++
      [(11, mkConcat2 50 100 [25, 3, 9] (Ty.tensor none))] :=
  (claim5_search_order_characterization noWriters revOrder gDupCands
      { cands := [{ nid := 10, kind := NKind.primConcat, ins := [1, 2, 9], out := 21,
                    outTy := Ty.tensor none, ival := none },
                  { nid := 14, kind := NKind.primConcat, ins := [1, 2, 9], out := 25,
                    outTy := Ty.tensor none, ival := none }],
        toRepl := [], fv := 100, fn := 50 }
      { nid := 11, kind := NKind.primConcat, ins := [1, 2, 3, 9], out := 22,
        outTy := Ty.tensor none, ival := none }
      (by decide)).1
    { nid := 14, kind := NKind.primConcat, ins := [1, 2, 9], out := 25,
      outTy := Ty.tensor none, ival := none }
    (by decide)

/-! ## Preservation lemmas for `postprocess` -/

theorem find?_insertListBefore {p : GNode → Bool} {ns : List GNode} {b : Nat}
    (hns : ∀ m ∈ ns, p m = false) :
    ∀ l : List GNode, (insertListBefore l b ns).find? p = l.find? p := by
  have hnone : ns.find? p = none :=
    List.find?_eq_none.mpr (fun x hx => by simp [hns x hx])
  intro l
  induction l with
  | nil => simpa [insertListBefore] using hnone
  | cons n rest ih =>
    simp only [insertListBefore]
    split
    · rw [List.find?_append, hnone, Option.none_or]
    · cases hpn : p n
      · rw [List.find?_cons_of_neg _ (by simp [hpn]),
            List.find?_cons_of_neg _ (by simp [hpn]), ih]
      · rw [List.find?_cons_of_pos _ hpn, List.find?_cons_of_pos _ hpn]

theorem findNode_insertBefore {g : Graph} {ns : List GNode} {b i : Nat}
    (hns : ∀ m ∈ ns, m.nid ≠ i) :
    (g.insertBefore b ns).findNode i = g.findNode i :=
  find?_insertListBefore (fun m hm => decide_eq_false (hns m hm)) g.nodes

theorem findNode_replaceAllUses (g : Graph) (v w : Nat) (i : Nat) :
    (g.replaceAllUsesWith v w).findNode i = (g.findNode i).map (rewireIns v w) := by
  show (g.nodes.map (rewireIns v w)).find? (fun n => n.nid = i)
      = (g.nodes.find? (fun n => n.nid = i)).map (rewireIns v w)
  rw [List.find?_map]
  rfl

theorem findNode_destroy_ne {g : Graph} {j i : Nat} (h : j ≠ i) :
    (g.destroyNode j).findNode i = g.findNode i := by
  show (g.nodes.filter (fun n => n.nid ≠ j)).find? (fun n => n.nid = i)
      = g.nodes.find? (fun n => n.nid = i)
  rw [List.find?_filter]
  congr 1
  funext a
  by_cases hai : a.nid = i
  · subst hai
    simp [Ne.symm h]
  · simp [hai]

theorem findNode_destroy_self (g : Graph) (i : Nat) :
    (g.destroyNode i).findNode i = none := by
  apply List.find?_eq_none.mpr
  intro x hx
  have := List.of_mem_filter hx
  simp at this ⊢
  exact this

theorem findNode_none_destroy {g : Graph} {j i : Nat}
    (h : g.findNode i = none) : (g.destroyNode j).findNode i = none := by
  apply List.find?_eq_none.mpr
  intro x hx
  exact List.find?_eq_none.mp h x (List.mem_of_mem_filter hx)

theorem rewireFold_fields (sub : List (Nat × Nat)) :
    ∀ n0 : GNode,
      (sub.foldl (fun n p => rewireIns p.1 p.2 n) n0).nid = n0.nid ∧
      (sub.foldl (fun n p => rewireIns p.1 p.2 n) n0).kind = n0.kind ∧
      (sub.foldl (fun n p => rewireIns p.1 p.2 n) n0).out = n0.out := by
  induction sub with
  | nil => intro n0; exact ⟨rfl, rfl, rfl⟩
  | cons q rest ih =>
    intro n0
    simp only [List.foldl_cons]
    exact ih (rewireIns q.1 q.2 n0)

theorem applyRepls_preserve :
    ∀ (l : List (Nat × GNode)) (g : Graph) (sub : List (Nat × Nat)) (i : Nat) (n : GNode),
      (∀ p ∈ l, p.1 ≠ i) → (∀ p ∈ l, p.2.nid ≠ i) →
      g.findNode i = some n →
      ∃ m, (applyRepls g sub l).1.findNode i = some m ∧
        m.nid = n.nid ∧ m.kind = n.kind ∧ m.out = n.out := by
  intro l
  induction l with
  | nil => intro g sub i n _ _ h; exact ⟨n, h, rfl, rfl, rfl⟩
  | cons p rest ih =>
    intro g sub i n hk hn h
    obtain ⟨oldId, newN0⟩ := p
    have hk0 : oldId ≠ i := hk (oldId, newN0) (List.mem_cons_self _ _)
    have hn0 : newN0.nid ≠ i := hn (oldId, newN0) (List.mem_cons_self _ _)
    unfold applyRepls
    dsimp only
    cases hf : g.findNode oldId with
    | none =>
      exact ih g sub i n (fun q hq => hk q (List.mem_cons_of_mem _ hq))
        (fun q hq => hn q (List.mem_cons_of_mem _ hq)) h
    | some oldN =>
      have hnewnid : (sub.foldl (fun n p => rewireIns p.1 p.2 n) newN0).nid ≠ i := by
        rw [(rewireFold_fields sub newN0).1]; exact hn0
      have h1 : ((g.insertBefore oldId
          [sub.foldl (fun n p => rewireIns p.1 p.2 n) newN0]).findNode i) = g.findNode i :=
        findNode_insertBefore (by
          intro m hm
          simp only [List.mem_singleton] at hm
          subst hm
          exact hnewnid)
      have h2 := findNode_replaceAllUses
        (g.insertBefore oldId [sub.foldl (fun n p => rewireIns p.1 p.2 n) newN0])
        oldN.out (sub.foldl (fun n p => rewireIns p.1 p.2 n) newN0).out i
      rw [h1, h] at h2
      have h3 := @findNode_destroy_ne
        ((g.insertBefore oldId [sub.foldl (fun n p => rewireIns p.1 p.2 n) newN0]).replaceAllUsesWith
          oldN.out (sub.foldl (fun n p => rewireIns p.1 p.2 n) newN0).out) oldId i hk0
      rw [h2] at h3
      simp only [Option.map_some'] at h3
      obtain ⟨m, hm, e1, e2, e3⟩ := ih _ _ i (rewireIns oldN.out
          (sub.foldl (fun n p => rewireIns p.1 p.2 n) newN0).out n)
        (fun q hq => hk q (List.mem_cons_of_mem _ hq))
        (fun q hq => hn q (List.mem_cons_of_mem _ hq)) h3
      exact ⟨m, hm, e1, e2, e3⟩

theorem findNode_of_mem_nodup {g : Graph}
    (hnd : (g.nodes.map (fun n => n.nid)).Nodup) {n : GNode} (hmem : n ∈ g.nodes) :
    g.findNode n.nid = some n := by
  have hs : (g.nodes.find? (fun m => m.nid = n.nid)).isSome :=
    List.find?_isSome.mpr ⟨n, hmem, by simp⟩
  obtain ⟨m, hm⟩ := Option.isSome_iff_exists.mp hs
  have hmm := List.mem_of_find?_eq_some hm
  have hpm : m.nid = n.nid := by simpa using List.find?_some hm
  have hmn : m = n := List.inj_on_of_nodup_map hnd hmm hmem hpm
  show g.nodes.find? (fun m => m.nid = n.nid) = some n
  rw [hm, hmn]

/-- C9, amended.  A `prim::Concat` node with 2 or fewer tensor operands
never has a substitution recorded for it (every `concats_to_replace_` key is
a node with more than 2 tensor operands, line 76), so it is never replaced
or destroyed: it survives `postprocess` with its identity, kind and output
value intact.  (Its input operands can still be rewired when they are
outputs of other rewritten concatenations — see the counterexample — which
is the one part of the claim's "left unchanged" that fails.) -/
theorem claim9_small_cat_never_substituted (hw : Nat → Bool)
    (perm : List GNode → List GNode) (g : Graph) (node : GNode)
    (hnd : (g.nodes.map (fun n => n.nid)).Nodup)
    (hlt : ∀ n ∈ g.nodes, n.nid < g.freshN)
    (hmem : node ∈ g.nodes)
    (hlen : (tensorIns node).length ≤ 2) :
    (∀ p ∈ (elimPhase1 hw perm g).toRepl, p.1 ≠ node.nid) ∧
    ∃ m, (elimRun hw perm g).2.findNode node.nid = some m ∧
      m.nid = node.nid ∧ m.kind = node.kind ∧ m.out = node.out := by
  have hkeys := (elimPhase1_spec hw perm g).2.2
  have hk : ∀ p ∈ (elimPhase1 hw perm g).toRepl, p.1 ≠ node.nid := by
    intro p hp heq
    obtain ⟨⟨m, hmmem, hmnid, hmlen⟩, _⟩ := hkeys p hp
    have : m = node := List.inj_on_of_nodup_map hnd hmmem hmem (hmnid.trans heq)
    rw [this] at hmlen
    omega
  refine ⟨hk, ?_⟩
  have hn : ∀ p ∈ (elimPhase1 hw perm g).toRepl, p.2.nid ≠ node.nid := by
    intro p hp heq
    obtain ⟨_, hfresh⟩ := hkeys p hp
    rw [heq] at hfresh
    exact absurd hfresh (Nat.not_le.mpr (hlt node hmem))
  have hfind : g.findNode node.nid = some node := findNode_of_mem_nodup hnd hmem
  obtain ⟨m, hm, e1, e2, e3⟩ :=
    applyRepls_preserve (elimPhase1 hw perm g).toRepl g [] node.nid node hk hn hfind
  exact ⟨m, hm, e1.trans rfl, e2, e3⟩

/-- Witness for the amended C9 at `gSmallConsumer`'s 2-operand concat node
13: no substitution is recorded for it and it survives the pass with kind
and output intact. -/
theorem claim9_small_cat_never_substituted_witness :
    (∀ p ∈ (elimPhase1 noWriters idOrder gSmallConsumer).toRepl, p.1 ≠ 13) ∧
    ∃ m, (elimRun noWriters idOrder gSmallConsumer).2.findNode 13 = some m ∧
      m.nid = 13 ∧ m.kind = NKind.primConcat ∧ m.out = 24 :=
  claim9_small_cat_never_substituted noWriters idOrder gSmallConsumer
    { nid := 13, kind := NKind.primConcat, ins := [22, 5, 9], out := 24,
      outTy := Ty.tensor none, ival := none }
    (by decide) (by decide) (by decide) (by decide)

/-- C7.  If any eligibility check of `expandCat` fails — writers into the
operand list, the list not produced by a `prim::ListConstruct`, any
input/output shape unknown or rank-0, any operand shape unknown or rank-0,
or a non-constant concatenation axis (`expandEligible` is the conjunction
of exactly these checks, lines 266-291) — the node is skipped and the
expander state, including the graph, is returned entirely unchanged: no
constants, allocations, slices or copies are emitted, nothing is recorded,
and (the model being total functions) no error is raised.  All checks
precede all emissions in `expandCat`, so there is no partial emission. -/
theorem claim7_ineligible_cat_unchanged (hw : Nat → Bool) (st : ExpState)
    (catId : Nat) (node : GNode)
    (h : st.g.findNode catId = some node)
    (hfail : expandEligible st.g hw node = false) :
    expandCat hw st catId = st := by
  unfold expandCat
  rw [h]
  dsimp only
  split
  · rfl
  next hhw =>
    split
    · rfl
    next listN hp =>
      split
      · rfl
      next hkind =>
        split
        · rfl
        next hshape =>
          split
          · rfl
          next hopshapes =>
            split
            · rfl
            next dim hconst =>
              exfalso
              unfold expandEligible at hfail
              rw [hp] at hfail
              have e1 : hw (node.ins.headD 0) = false := by
                revert hhw; cases hw (node.ins.headD 0) <;> simp
              have e2 : listN.kind = NKind.primListConstruct := by
                by_contra hne
                exact hkind hne
              have e3 : allShapesKnown st.g node = true := by
                revert hshape; cases allShapesKnown st.g node <;> simp
              have e4 : listN.ins.all (fun v => shapeIsKnown st.g v) = true := by
                revert hopshapes; cases listN.ins.all (fun v => shapeIsKnown st.g v) <;> simp
              simp only [e1, e2, e3, e4, hconst] at hfail
              simp at hfail

/-- Witness for C7: the `aten::cat` node 21 of `gTwoVarCats` has an output
of unknown shape, so it is ineligible and `expandCat` leaves the state
unchanged. -/
theorem claim7_ineligible_cat_unchanged_witness :
    expandEligible (expInit gTwoVarCats).g noWriters
      { nid := 21, kind := NKind.atenCat, ins := [30, 9], out := 31,
        outTy := Ty.tensor none, ival := none } = false ∧
    expandCat noWriters (expInit gTwoVarCats) 21 = expInit gTwoVarCats :=
  ⟨by decide,
   claim7_ineligible_cat_unchanged noWriters (expInit gTwoVarCats) 21
     { nid := 21, kind := NKind.atenCat, ins := [30, 9], out := 31,
       outTy := Ty.tensor none, ival := none }
     (by decide) (by decide)⟩

/-- C3, amended.  `reuseBuffersInCopies` fuses every recorded write whose
source operand is produced by an `aten::empty` allocation, with no
hypothesis whatsoever on how many other consumers that allocation has: the
allocation node and the write are unconditionally destroyed (the only tests
in lines 452-457 are membership in `copies_added_` and
`src->node()->kind() == aten::empty`). -/
theorem claim3_fusion_requires_only_empty_source (g : Graph) (copyId : Nat)
    (cpy srcN dstN : GNode)
    (hc : g.findNode copyId = some cpy)
    (hs : g.producer (cpy.ins.getD 1 0) = some srcN)
    (hk : srcN.kind = NKind.atenEmpty)
    (hd : g.producer (cpy.ins.headD 0) = some dstN) :
    (reuseStep g copyId).findNode srcN.nid = none ∧
    (reuseStep g copyId).findNode copyId = none := by
  unfold reuseStep
  rw [hc]
  dsimp only
  rw [hs]
  dsimp only
  rw [if_neg (by simp [hk]), hd]
  dsimp only
  constructor
  · exact findNode_none_destroy (findNode_destroy_self _ _)
  · exact findNode_destroy_self _ _

/-- Witness for the amended C3 on `gFuseTiny`: the copy node 3's source
`%5` is an `aten::empty` with a second consumer (node 4), and the fusion
step still destroys both the allocation and the copy. -/
theorem claim3_fusion_requires_only_empty_source_witness :
    (reuseStep gFuseTiny 3).findNode 1 = none ∧
    (reuseStep gFuseTiny 3).findNode 3 = none :=
  claim3_fusion_requires_only_empty_source gFuseTiny 3
    { nid := 3, kind := NKind.atenCopy, ins := [7, 5], out := 8,
      outTy := Ty.tensor none, ival := none }
    { nid := 1, kind := NKind.atenEmpty, ins := [], out := 5,
      outTy := Ty.tensor none, ival := none }
    { nid := 2, kind := NKind.otherKind 0, ins := [], out := 7,
      outTy := Ty.tensor none, ival := none }
    (by decide) (by decide) (by decide) (by decide)

/-! ## Measure lemmas for the fixpoint driver -/

theorem length_filter_insertListBefore (p : GNode → Bool) (b : Nat) (ns : List GNode) :
    ∀ l : List GNode,
      ((insertListBefore l b ns).filter p).length
        = (l.filter p).length + (ns.filter p).length := by
  intro l
  induction l with
  | nil => simp [insertListBefore, Nat.add_comm]
  | cons n rest ih =>
    simp only [insertListBefore]
    split
    · rw [List.filter_append, List.length_append, Nat.add_comm]
    · cases hpn : p n
      · rw [List.filter_cons_of_neg (by simp [hpn]), List.filter_cons_of_neg (by simp [hpn]), ih]
      · rw [List.filter_cons_of_pos (by simp [hpn]), List.filter_cons_of_pos (by simp [hpn])]
        simp only [List.length_cons]
        rw [ih, Nat.succ_add]

theorem catCount_insertBefore {ns : List GNode} (g : Graph) (b : Nat)
    (h : ∀ x ∈ ns, x.kind ≠ NKind.atenCat) :
    catCount (g.insertBefore b ns) = catCount g := by
  unfold catCount Graph.insertBefore
  dsimp only
  rw [length_filter_insertListBefore]
  have : ns.filter (fun n => n.kind = NKind.atenCat) = [] :=
    List.filter_eq_nil_iff.mpr (fun x hx => by simp [h x hx])
  rw [this]
  rfl

theorem catCount_replaceAllUses (g : Graph) (v w : Nat) :
    catCount (g.replaceAllUsesWith v w) = catCount g := by
  unfold catCount Graph.replaceAllUsesWith
  dsimp only
  rw [List.filter_map]
  rw [List.length_map]
  rfl

theorem length_filter_filter_le (p q : α → Bool) :
    ∀ l : List α, ((l.filter q).filter p).length ≤ (l.filter p).length := by
  intro l
  induction l with
  | nil => simp
  | cons a t ih =>
    cases hq : q a <;> cases hp : p a <;>
      simp only [List.filter_cons, hq, hp, if_pos, if_neg, Bool.false_eq_true,
        ite_true, ite_false, List.length_cons] <;>
      omega

theorem length_filter_filter_lt (p q : α → Bool) :
    ∀ l : List α, (∃ x ∈ l, p x = true ∧ q x = false) →
      ((l.filter q).filter p).length < (l.filter p).length := by
  intro l
  induction l with
  | nil => rintro ⟨x, hx, _⟩; cases hx
  | cons a t ih =>
    rintro ⟨x, hx, hpx, hqx⟩
    rcases List.mem_cons.mp hx with rfl | hxt
    · rw [List.filter_cons_of_neg (by simp [hqx]), List.filter_cons_of_pos (by simp [hpx])]
      simp only [List.length_cons]
      exact Nat.lt_succ_of_le (length_filter_filter_le p q t)
    · cases hq : q a <;> cases hp : p a <;>
        simp only [List.filter_cons, hq, hp, Bool.false_eq_true,
          ite_true, ite_false, List.length_cons] <;>
        [skip; skip; skip; skip] <;> first
        | exact ih ⟨x, hxt, hpx, hqx⟩
        | exact Nat.lt_succ_of_le (Nat.le_of_lt (ih ⟨x, hxt, hpx, hqx⟩))
        | exact Nat.succ_lt_succ (ih ⟨x, hxt, hpx, hqx⟩)

theorem catCount_destroy_le (g : Graph) (i : Nat) :
    catCount (g.destroyNode i) ≤ catCount g :=
  length_filter_filter_le _ _ g.nodes

theorem catCount_destroy_lt (g : Graph) (i : Nat)
    (h : ∃ x ∈ g.nodes, x.nid = i ∧ x.kind = NKind.atenCat) :
    catCount (g.destroyNode i) < catCount g := by
  obtain ⟨x, hx, hnid, hkind⟩ := h
  exact length_filter_filter_lt _ _ g.nodes
    ⟨x, hx, by simp [hkind], by simp [hnid]⟩

theorem mem_insertListBefore {x : GNode} (b : Nat) (ns : List GNode) :
    ∀ l : List GNode, x ∈ l → x ∈ insertListBefore l b ns := by
  intro l
  induction l with
  | nil => intro hx; cases hx
  | cons n rest ih =>
    intro hx
    simp only [insertListBefore]
    split
    · exact List.mem_append_right ns hx
    · rcases List.mem_cons.mp hx with rfl | hxt
      · exact List.mem_cons_self _ _
      · exact List.mem_cons_of_mem _ (ih hxt)

theorem replaceWVC_true_decreases (cm : Nat → Nat → Bool) (g : Graph) (c : Nat)
    (hmem : ∃ x ∈ g.nodes, x.nid = c ∧ x.kind = NKind.atenCat)
    (h : (replaceWithVariadicCat cm g c).1 = true) :
    catCount (replaceWithVariadicCat cm g c).2 < catCount g := by
  unfold replaceWithVariadicCat at h ⊢
  cases hf : g.findNode c with
  | none => rw [hf] at h; simp at h
  | some cat =>
    rw [hf] at h
    dsimp only at h ⊢
    cases hp : g.producer (cat.ins.headD 0) with
    | none => rw [hp] at h; simp at h
    | some listN =>
      rw [hp] at h
      dsimp only at h ⊢
      by_cases hkind : listN.kind ≠ NKind.primListConstruct
      · rw [if_pos hkind] at h; simp at h
      · rw [if_neg hkind] at h ⊢
        by_cases hcm : ¬ cm listN.nid c
        · rw [if_pos hcm] at h; simp at h
        · rw [if_neg hcm] at h ⊢
          obtain ⟨x, hx, hnid, hkindx⟩ := hmem
          have hg1 : catCount ((g.insertBefore c
              [mkVarCat g.freshN g.freshV (listN.ins ++ [cat.ins.getD 1 0])]).replaceAllUsesWith
              cat.out (mkVarCat g.freshN g.freshV (listN.ins ++ [cat.ins.getD 1 0])).out)
              = catCount g := by
            rw [catCount_replaceAllUses, catCount_insertBefore]
            intro y hy
            simp only [List.mem_singleton] at hy
            subst hy
            simp [mkVarCat]
          have hmem1 : ∃ y ∈ ((g.insertBefore c
              [mkVarCat g.freshN g.freshV (listN.ins ++ [cat.ins.getD 1 0])]).replaceAllUsesWith
              cat.out (mkVarCat g.freshN g.freshV (listN.ins ++ [cat.ins.getD 1 0])).out).nodes,
              y.nid = c ∧ y.kind = NKind.atenCat := by
            refine ⟨rewireIns cat.out
              (mkVarCat g.freshN g.freshV (listN.ins ++ [cat.ins.getD 1 0])).out x, ?_, hnid, hkindx⟩
            exact List.mem_map_of_mem _ (mem_insertListBefore c _ g.nodes hx)
          have hlt2 := catCount_destroy_lt _ c hmem1
          rw [hg1] at hlt2
          have hle3 : catCount (if ((((g.insertBefore c
              [mkVarCat g.freshN g.freshV (listN.ins ++ [cat.ins.getD 1 0])]).replaceAllUsesWith
              cat.out (mkVarCat g.freshN g.freshV (listN.ins ++ [cat.ins.getD 1 0])).out).destroyNode
              c).hasUses listN.out) then
              (((g.insertBefore c
                [mkVarCat g.freshN g.freshV (listN.ins ++ [cat.ins.getD 1 0])]).replaceAllUsesWith
                cat.out (mkVarCat g.freshN g.freshV (listN.ins ++ [cat.ins.getD 1 0])).out).destroyNode c)
            else
              ((((g.insertBefore c
                [mkVarCat g.freshN g.freshV (listN.ins ++ [cat.ins.getD 1 0])]).replaceAllUsesWith
                cat.out (mkVarCat g.freshN g.freshV (listN.ins ++ [cat.ins.getD 1 0])).out).destroyNode
                c).destroyNode listN.nid))
            ≤ catCount (((g.insertBefore c
              [mkVarCat g.freshN g.freshV (listN.ins ++ [cat.ins.getD 1 0])]).replaceAllUsesWith
              cat.out (mkVarCat g.freshN g.freshV (listN.ins ++ [cat.ins.getD 1 0])).out).destroyNode c) := by
            split
            · exact Nat.le_refl _
            · exact catCount_destroy_le _ _
          exact Nat.lt_of_le_of_lt hle3 hlt2

theorem uvcFold_skip (cm : Nat → Nat → Bool) :
    ∀ (ids : List Nat) (acc : Bool × Graph), acc.1 = true →
      ids.foldl (fun acc c =>
        if acc.1 then acc
        else
          let r := replaceWithVariadicCat cm acc.2 c
          (acc.1 || r.1, r.2)) acc = acc := by
  intro ids
  induction ids with
  | nil => intro acc _; rfl
  | cons c rest ih =>
    intro acc hacc
    simp only [List.foldl_cons, if_pos hacc]
    exact ih acc hacc

theorem uvcFold_true_decreases (cm : Nat → Nat → Bool) :
    ∀ (ids : List Nat) (g : Graph),
      (∀ c ∈ ids, ∃ x ∈ g.nodes, x.nid = c ∧ x.kind = NKind.atenCat) →
      ((ids.foldl (fun acc c =>
          if acc.1 then acc
          else
            let r := replaceWithVariadicCat cm acc.2 c
            (acc.1 || r.1, r.2)) (false, g)).1 = true) →
      catCount (ids.foldl (fun acc c =>
          if acc.1 then acc
          else
            let r := replaceWithVariadicCat cm acc.2 c
            (acc.1 || r.1, r.2)) (false, g)).2 < catCount g := by
  intro ids
  induction ids with
  | nil => intro g _ hfin; simp at hfin
  | cons c rest ih =>
    intro g hmem hfin
    simp only [List.foldl_cons, if_neg (by simp : ¬ (false, g).1 = true)] at hfin ⊢
    rcases replaceWVC_cases cm g c with hcase | hcase
    · rw [hcase] at hfin ⊢
      simp only [Bool.or_false] at hfin ⊢
      exact ih g (fun d hd => hmem d (List.mem_cons_of_mem c hd)) hfin
    · have hdec := replaceWVC_true_decreases cm g c
        (hmem c (List.mem_cons_self c rest)) hcase
      have hskip := uvcFold_skip cm rest
        ((false, g).1 || (replaceWithVariadicCat cm g c).1, (replaceWithVariadicCat cm g c).2)
        (by simp [hcase])
      rw [hskip]
      simpa using hdec

theorem uvc_true_decreases {cm : Nat → Nat → Bool} {g : Graph}
    (h : (uvcRun cm g).1 = true) :
    catCount (uvcRun cm g).2 < catCount g := by
  unfold uvcRun at h ⊢
  refine uvcFold_true_decreases cm _ g ?_ h
  intro c hc
  obtain ⟨n, hn, hnid⟩ := List.mem_map.mp hc
  obtain ⟨hmem, hkind⟩ := List.mem_filter.mp hn
  exact ⟨n, hmem, hnid, by simpa using hkind⟩

theorem rlmLoop_succ (rlm : Graph → Bool × Graph) (cm : Nat → Nat → Bool)
    (fuel : Nat) (g : Graph) (ch : Bool) :
    rlmLoop rlm cm (fuel + 1) g ch =
      (if (rlmRound rlm cm g).1 then rlmLoop rlm cm fuel (rlmRound rlm cm g).2 true
       else (ch, (rlmRound rlm cm g).2)) := rfl

theorem rlmLoop_ch_true (rlm : Graph → Bool × Graph) (cm : Nat → Nat → Bool) :
    ∀ (fuel : Nat) (g : Graph), (rlmLoop rlm cm fuel g true).1 = true := by
  intro fuel
  induction fuel with
  | zero => intro g; rfl
  | succ f ih =>
    intro g
    rw [rlmLoop_succ]
    split
    · exact ih _
    · rfl

theorem rlmRound_true_iff (rlm : Graph → Bool × Graph) (cm : Nat → Nat → Bool) (g : Graph) :
    (rlmRound rlm cm g).1 = true ↔
      ((rlm g).1 = true ∨ (uvcRun cm (rlm g).2).1 = true) := by
  unfold rlmRound
  cases hr : (rlm g).1
  · simp [hr]
  · simp [hr]

theorem rlmRound_false_parts {rlm : Graph → Bool × Graph} {cm : Nat → Nat → Bool}
    (hf : ∀ g, (rlm g).1 = false → (rlm g).2 = g) (g : Graph)
    (h : (rlmRound rlm cm g).1 = false) :
    (rlm g).1 = false ∧ (uvcRun cm g).1 = false ∧ (rlmRound rlm cm g).2 = g := by
  unfold rlmRound at h ⊢
  cases hr : (rlm g).1
  · rw [if_neg (by simp [hr])] at h ⊢
    rw [hf g hr] at h ⊢
    have := uvcRun_false_unchanged h
    exact ⟨rfl, h, by rw [this]⟩
  · rw [if_pos (by simp [hr])] at h
    simp at h

theorem rlmRound_true_decreases {rlm : Graph → Bool × Graph} {m : Graph → Nat}
    {cm : Nat → Nat → Bool}
    (hf : ∀ g, (rlm g).1 = false → (rlm g).2 = g)
    (ht : ∀ g, (rlm g).1 = true →
      m (rlm g).2 + catCount (rlm g).2 < m g + catCount g)
    (hm : ∀ g, m (uvcRun cm g).2 ≤ m g) (g : Graph)
    (h : (rlmRound rlm cm g).1 = true) :
    m (rlmRound rlm cm g).2 + catCount (rlmRound rlm cm g).2 < m g + catCount g := by
  unfold rlmRound at h ⊢
  cases hr : (rlm g).1
  · rw [if_neg (by simp [hr])] at h ⊢
    rw [hf g hr] at h ⊢
    exact Nat.add_lt_add_of_le_of_lt (hm g) (uvc_true_decreases h)
  · rw [if_pos (by simp [hr])]
    exact ht g hr

theorem rlmLoop_spec (rlm : Graph → Bool × Graph) (m : Graph → Nat)
    (cm : Nat → Nat → Bool)
    (hf : ∀ g, (rlm g).1 = false → (rlm g).2 = g)
    (ht : ∀ g, (rlm g).1 = true →
      m (rlm g).2 + catCount (rlm g).2 < m g + catCount g)
    (hm : ∀ g, m (uvcRun cm g).2 ≤ m g) :
    ∀ (fuel : Nat) (g : Graph) (ch : Bool), m g + catCount g < fuel →
      ((rlm (rlmLoop rlm cm fuel g ch).2).1 = false ∧
       (uvcRun cm (rlmLoop rlm cm fuel g ch).2).1 = false ∧
       ∀ fuel2, m g + catCount g < fuel2 →
         rlmLoop rlm cm fuel2 g ch = rlmLoop rlm cm fuel g ch) := by
  intro fuel
  induction fuel with
  | zero => intro g ch h; exact absurd h (Nat.not_lt_zero _)
  | succ f ihf =>
    intro g ch h
    by_cases hr : (rlmRound rlm cm g).1 = true
    · have hdec := rlmRound_true_decreases hf ht hm g hr
      have hlt : m (rlmRound rlm cm g).2 + catCount (rlmRound rlm cm g).2 < f :=
        Nat.lt_of_lt_of_le hdec (Nat.lt_succ_iff.mp h)
      obtain ⟨c1, c2, c3⟩ := ihf (rlmRound rlm cm g).2 true hlt
      have hstep : rlmLoop rlm cm (f + 1) g ch
          = rlmLoop rlm cm f (rlmRound rlm cm g).2 true := by
        rw [rlmLoop_succ, if_pos hr]
      refine ⟨by rw [hstep]; exact c1, by rw [hstep]; exact c2, ?_⟩
      intro fuel2 h2
      cases fuel2 with
      | zero => exact absurd h2 (Nat.not_lt_zero _)
      | succ f2 =>
        rw [rlmLoop_succ, if_pos hr, hstep]
        exact c3 f2 (Nat.lt_of_lt_of_le hdec (Nat.lt_succ_iff.mp h2))
    · have hr' : (rlmRound rlm cm g).1 = false := by
        revert hr; cases (rlmRound rlm cm g).1 <;> simp
      obtain ⟨f1, f2, f3⟩ := rlmRound_false_parts hf g hr'
      have hstep : rlmLoop rlm cm (f + 1) g ch = (ch, g) := by
        rw [rlmLoop_succ, if_neg (by simp [hr']), f3]
      refine ⟨by rw [hstep]; exact f1, by rw [hstep]; exact f2, ?_⟩
      intro fuel2 h2
      cases fuel2 with
      | zero => exact absurd h2 (Nat.not_lt_zero _)
      | succ f4 =>
        rw [hstep, rlmLoop_succ, if_neg (by simp [hr']), f3]

/-- C8.  `RemoveListMutationAndUseVariadicCat` (lines 576-585), with the
external `RemoveListMutation` collaborator modelled from the spec as an
abstract function `rlm` that returns the (unchanged) graph when it reports
`false` and strictly decreases a combined measure (removable mutations plus
`aten::cat` count, per the spec's termination argument) when it reports
`true`; `UseVariadicCat`'s own strict decrease of the `aten::cat` count is
proved, not assumed.  Conclusions: the while-loop terminates — its result
is the same for every fuel above the measure bound; it returns `true` iff a
sub-pass of the first round reports a change, and a reporting sub-pass has
genuinely changed the graph; a `false` result returns the graph unchanged;
and on the returned graph both sub-passes individually report no change. -/
theorem claim8_driver_fixpoint (rlm : Graph → Bool × Graph) (m : Graph → Nat)
    (cm : Nat → Nat → Bool) (g : Graph)
    (hf : ∀ g, (rlm g).1 = false → (rlm g).2 = g)
    (ht : ∀ g, (rlm g).1 = true →
      m (rlm g).2 + catCount (rlm g).2 < m g + catCount g)
    (hm : ∀ g, m (uvcRun cm g).2 ≤ m g) :
    (∀ fuel, m g + catCount g < fuel →
      rlmDriver rlm cm fuel g = rlmDriver rlm cm (m g + catCount g + 1) g) ∧
    ((rlmDriver rlm cm (m g + catCount g + 1) g).1 = true ↔
      ((rlm g).1 = true ∨ (uvcRun cm (rlm g).2).1 = true)) ∧
    ((rlm g).1 = true → (rlm g).2 ≠ g) ∧
    ((uvcRun cm g).1 = true → (uvcRun cm g).2 ≠ g) ∧
    ((rlmDriver rlm cm (m g + catCount g + 1) g).1 = false →
      (rlmDriver rlm cm (m g + catCount g + 1) g).2 = g) ∧
    (rlm (rlmDriver rlm cm (m g + catCount g + 1) g).2).1 = false ∧
    (uvcRun cm (rlmDriver rlm cm (m g + catCount g + 1) g).2).1 = false := by
  have hbound : m g + catCount g < m g + catCount g + 1 := Nat.lt_succ_self _
  obtain ⟨c1, c2, c3⟩ := rlmLoop_spec rlm m cm hf ht hm (m g + catCount g + 1) g false hbound
  refine ⟨?_, ?_, ?_, ?_, ?_, c1, c2⟩
  · intro fuel hfuel
    exact c3 fuel hfuel
  · constructor
    · intro htrue
      by_contra hnot
      have hr' : (rlmRound rlm cm g).1 = false := by
        revert hnot
        cases hrr : (rlmRound rlm cm g).1
        · intro _; rfl
        · intro hnot
          exact absurd ((rlmRound_true_iff rlm cm g).mp hrr) hnot
      obtain ⟨_, _, f3⟩ := rlmRound_false_parts hf g hr'
      have : rlmDriver rlm cm (m g + catCount g + 1) g = (false, g) := by
        unfold rlmDriver
        rw [rlmLoop_succ, if_neg (by simp [hr']), f3]
      rw [this] at htrue
      simp at htrue
    · intro hor
      have hr : (rlmRound rlm cm g).1 = true := (rlmRound_true_iff rlm cm g).mpr hor
      show (rlmLoop rlm cm (m g + catCount g + 1) g false).1 = true
      rw [rlmLoop_succ, if_pos hr]
      exact rlmLoop_ch_true rlm cm _ _
  · intro htrue heq
    have := ht g htrue
    rw [heq] at this
    exact Nat.lt_irrefl _ this
  · intro htrue heq
    have := uvc_true_decreases htrue
    rw [heq] at this
    exact Nat.lt_irrefl _ this
  · intro hfalse
    by_cases hr : (rlmRound rlm cm g).1 = true
    · exfalso
      have : (rlmDriver rlm cm (m g + catCount g + 1) g).1 = true := by
        show (rlmLoop rlm cm (m g + catCount g + 1) g false).1 = true
        rw [rlmLoop_succ, if_pos hr]
        exact rlmLoop_ch_true rlm cm _ _
      rw [this] at hfalse
      simp at hfalse
    · have hr' : (rlmRound rlm cm g).1 = false := by
        revert hr; cases (rlmRound rlm cm g).1 <;> simp
      obtain ⟨_, _, f3⟩ := rlmRound_false_parts hf g hr'
      show (rlmLoop rlm cm (m g + catCount g + 1) g false).2 = g
      rw [rlmLoop_succ, if_neg (by simp [hr']), f3]

/-- Witness for C8 with the trivial list-mutation-removal collaborator (no
mutations to remove) on `gTwoVarCats`: the driver reaches a state on which
both sub-passes report no change. -/
theorem claim8_driver_fixpoint_witness :
    ((fun g => ((false : Bool), g))
        (rlmDriver (fun g => ((false : Bool), g)) alwaysMovable 3 gTwoVarCats).2).1 = false ∧
    (uvcRun alwaysMovable
        (rlmDriver (fun g => ((false : Bool), g)) alwaysMovable 3 gTwoVarCats).2).1 = false :=
  (claim8_driver_fixpoint (fun g => ((false : Bool), g)) (fun _ => 0) alwaysMovable
    gTwoVarCats (fun _ _ => rfl) (fun _ h => Bool.noConfusion h)
    (fun _ => Nat.le_refl 0)).2.2.2.2.2

/-! ## Structure of the emitted expansion segment -/

theorem sizeConsts_mem :
    ∀ (sizes : List Int) (vc nc : Nat) (x : GNode), x ∈ sizeConsts vc nc sizes →
      x.kind = NKind.primConstant ∧ vc ≤ x.out ∧ x.out < vc + sizes.length ∧
      nc ≤ x.nid := by
  intro sizes
  induction sizes with
  | nil => intro vc nc x hx; cases hx
  | cons s rest ih =>
    intro vc nc x hx
    rcases List.mem_cons.mp hx with rfl | hxt
    · refine ⟨rfl, Nat.le_refl _, ?_, Nat.le_refl _⟩
      show vc < vc + (rest.length + 1)
      omega
    · obtain ⟨k1, k2, k3, k4⟩ := ih (vc + 1) (nc + 1) x hxt
      refine ⟨k1, by omega, ?_, by omega⟩
      simp only [List.length_cons]
      omega

theorem emitLoop_mem (g : Graph) (dim : Int) (dimV oneV eOut : Nat) :
    ∀ (inps : List Nat) (s0 : Int) (sV vc nc : Nat) (x : GNode),
      x ∈ emitLoop g dim dimV oneV eOut inps s0 sV vc nc →
      (x.kind = NKind.primConstant ∨ x.kind = NKind.atenSlice ∨ x.kind = NKind.atenCopy) ∧
      vc ≤ x.out ∧ x.out < vc + 3 * inps.length ∧ nc ≤ x.nid := by
  intro inps
  induction inps with
  | nil => intro s0 sV vc nc x hx; cases hx
  | cons inp rest ih =>
    intro s0 sV vc nc x hx
    simp only [emitLoop] at hx
    rcases List.mem_cons.mp hx with rfl | hx
    · refine ⟨Or.inl rfl, Nat.le_refl _, ?_, Nat.le_refl _⟩
      show vc < vc + 3 * (rest.length + 1)
      omega
    rcases List.mem_cons.mp hx with rfl | hx
    · refine ⟨Or.inr (Or.inl rfl), ?_, ?_, ?_⟩
      · show vc ≤ vc + 1
        omega
      · show vc + 1 < vc + 3 * (rest.length + 1)
        omega
      · show nc ≤ nc + 1
        omega
    rcases List.mem_cons.mp hx with rfl | hx
    · refine ⟨Or.inr (Or.inr rfl), ?_, ?_, ?_⟩
      · show vc ≤ vc + 2
        omega
      · show vc + 2 < vc + 3 * (rest.length + 1)
        omega
      · show nc ≤ nc + 2
        omega
    · obtain ⟨k1, k2, k3, k4⟩ := ih _ _ _ _ x hx
      refine ⟨k1, by omega, ?_, by omega⟩
      simp only [List.length_cons] at k3 ⊢
      omega

theorem expSegment_mem (g : Graph) (listIns : List Nat) (dim : Int) (dimV : Nat)
    (outSizes : List Int) (v0 n0 : Nat) :
    ∀ x ∈ expSegment g listIns dim dimV outSizes v0 n0,
      v0 ≤ x.out ∧ x.out < v0 + 5 + outSizes.length + 3 * listIns.length ∧
      n0 ≤ x.nid := by
  intro x hx
  unfold expSegment at hx
  rcases List.mem_append.mp hx with hx | hx
  · rcases List.mem_append.mp hx with hx | hx
    · rcases List.mem_append.mp hx with hx | hx
      · rcases List.mem_cons.mp hx with rfl | hx
        · refine ⟨Nat.le_refl _, ?_, Nat.le_refl _⟩
          show v0 < v0 + 5 + outSizes.length + 3 * listIns.length
          omega
        rcases List.mem_cons.mp hx with rfl | hx
        · refine ⟨?_, ?_, ?_⟩
          · show v0 ≤ v0 + 1
            omega
          · show v0 + 1 < v0 + 5 + outSizes.length + 3 * listIns.length
            omega
          · show n0 ≤ n0 + 1
            omega
        · cases hx
      · obtain ⟨_, k2, k3, k4⟩ := sizeConsts_mem outSizes (v0 + 2) (n0 + 2) x hx
        exact ⟨by omega, by omega, by omega⟩
    · rcases List.mem_cons.mp hx with rfl | hx
      · refine ⟨?_, ?_, ?_⟩
        · show v0 ≤ v0 + 2 + outSizes.length
          omega
        · show v0 + 2 + outSizes.length < v0 + 5 + outSizes.length + 3 * listIns.length
          omega
        · show n0 ≤ n0 + 2 + outSizes.length
          omega
      rcases List.mem_cons.mp hx with rfl | hx
      · refine ⟨?_, ?_, ?_⟩
        · show v0 ≤ v0 + 3 + outSizes.length
          omega
        · show v0 + 3 + outSizes.length < v0 + 5 + outSizes.length + 3 * listIns.length
          omega
        · show n0 ≤ n0 + 3 + outSizes.length
          omega
      rcases List.mem_cons.mp hx with rfl | hx
      · refine ⟨?_, ?_, ?_⟩
        · show v0 ≤ v0 + 4 + outSizes.length
          omega
        · show v0 + 4 + outSizes.length < v0 + 5 + outSizes.length + 3 * listIns.length
          omega
        · show n0 ≤ n0 + 4 + outSizes.length
          omega
      · cases hx
  · obtain ⟨_, k2, k3, k4⟩ := emitLoop_mem g dim dimV (v0 + 1) (v0 + 3 + outSizes.length)
      listIns 0 (v0 + 4 + outSizes.length) (v0 + 5 + outSizes.length)
      (n0 + 5 + outSizes.length) x hx
    exact ⟨by omega, by omega, by omega⟩

theorem emitLoop_copySrcs (g : Graph) (dim : Int) (dimV oneV eOut : Nat) :
    ∀ (inps : List Nat) (s0 : Int) (sV vc nc : Nat),
      (emitLoop g dim dimV oneV eOut inps s0 sV vc nc).filterMap
        (fun n => if n.kind = NKind.atenCopy then some (n.ins.getD 1 0) else none) = inps := by
  intro inps
  induction inps with
  | nil => intro s0 sV vc nc; rfl
  | cons inp rest ih =>
    intro s0 sV vc nc
    simp only [emitLoop, List.filterMap_cons,
      show (NKind.primConstant = NKind.atenCopy) = False by simp,
      show (NKind.atenSlice = NKind.atenCopy) = False by simp,
      eq_self_iff_true, if_false, ite_false, ite_true]
    exact congrArg _ (ih _ _ _ _)

theorem emitLoop_copyDsts_eq_sliceOuts (g : Graph) (dim : Int) (dimV oneV eOut : Nat) :
    ∀ (inps : List Nat) (s0 : Int) (sV vc nc : Nat),
      (emitLoop g dim dimV oneV eOut inps s0 sV vc nc).filterMap
        (fun n => if n.kind = NKind.atenCopy then some (n.ins.headD 0) else none)
      = (emitLoop g dim dimV oneV eOut inps s0 sV vc nc).filterMap
        (fun n => if n.kind = NKind.atenSlice then some n.out else none) := by
  intro inps
  induction inps with
  | nil => intro s0 sV vc nc; rfl
  | cons inp rest ih =>
    intro s0 sV vc nc
    simp only [emitLoop, List.filterMap_cons]
    simp only [show (NKind.primConstant = NKind.atenCopy) = False by simp,
      show (NKind.primConstant = NKind.atenSlice) = False by simp,
      show (NKind.atenSlice = NKind.atenCopy) = False by simp,
      show (NKind.atenCopy = NKind.atenSlice) = False by simp]
    simp only [if_false, if_pos rfl, ite_false, ite_true]
    exact congrArg _ (ih _ _ _ _)

theorem copySrcsIn_expSegment (g : Graph) (listIns : List Nat) (dim : Int)
    (dimV : Nat) (outSizes : List Int) (v0 n0 : Nat) :
    copySrcsIn (expSegment g listIns dim dimV outSizes v0 n0) = listIns := by
  have h1 : (sizeConsts (v0 + 2) (n0 + 2) outSizes).filterMap
      (fun n => if n.kind = NKind.atenCopy then some (n.ins.getD 1 0) else none) = [] :=
    List.filterMap_eq_nil_iff.mpr (fun a ha => by
      have hk := (sizeConsts_mem outSizes (v0 + 2) (n0 + 2) a ha).1
      simp [hk])
  unfold copySrcsIn expSegment
  simp only [List.filterMap_append, h1]
  rw [emitLoop_copySrcs]
  simp

theorem copyDsts_eq_sliceOuts_expSegment (g : Graph) (listIns : List Nat) (dim : Int)
    (dimV : Nat) (outSizes : List Int) (v0 n0 : Nat) :
    copyDstsIn (expSegment g listIns dim dimV outSizes v0 n0)
      = sliceOutsIn (expSegment g listIns dim dimV outSizes v0 n0) := by
  have h1 : (sizeConsts (v0 + 2) (n0 + 2) outSizes).filterMap
      (fun n => if n.kind = NKind.atenCopy then some (n.ins.headD 0) else none) = [] :=
    List.filterMap_eq_nil_iff.mpr (fun a ha => by
      have hk := (sizeConsts_mem outSizes (v0 + 2) (n0 + 2) a ha).1
      simp [hk])
  have h2 : (sizeConsts (v0 + 2) (n0 + 2) outSizes).filterMap
      (fun n => if n.kind = NKind.atenSlice then some n.out else none) = [] :=
    List.filterMap_eq_nil_iff.mpr (fun a ha => by
      have hk := (sizeConsts_mem outSizes (v0 + 2) (n0 + 2) a ha).1
      simp [hk])
  unfold copyDstsIn sliceOutsIn expSegment
  simp only [List.filterMap_append, h1, h2]
  rw [emitLoop_copyDsts_eq_sliceOuts]
  simp

theorem emptiesIn_expSegment (g : Graph) (listIns : List Nat) (dim : Int)
    (dimV : Nat) (outSizes : List Int) (v0 n0 : Nat) :
    emptiesIn (expSegment g listIns dim dimV outSizes v0 n0)
      = [{ nid := n0 + 3 + outSizes.length, kind := NKind.atenEmpty,
           ins := [v0 + 2 + outSizes.length, v0, v0, v0, v0, v0],
           out := v0 + 3 + outSizes.length,
           outTy := Ty.tensor none, ival := none }] := by
  have h1 : (sizeConsts (v0 + 2) (n0 + 2) outSizes).filter
      (fun n => n.kind = NKind.atenEmpty) = [] :=
    List.filter_eq_nil_iff.mpr (fun a ha => by
      have hk := (sizeConsts_mem outSizes (v0 + 2) (n0 + 2) a ha).1
      simp [hk])
  have h2 : (emitLoop g dim dimV (v0 + 1) (v0 + 3 + outSizes.length) listIns 0
      (v0 + 4 + outSizes.length) (v0 + 5 + outSizes.length)
      (n0 + 5 + outSizes.length)).filter
      (fun n => n.kind = NKind.atenEmpty) = [] :=
    List.filter_eq_nil_iff.mpr (fun a ha => by
      rcases (emitLoop_mem g dim dimV (v0 + 1) (v0 + 3 + outSizes.length) listIns 0
        (v0 + 4 + outSizes.length) (v0 + 5 + outSizes.length)
        (n0 + 5 + outSizes.length) a ha).1 with hk | hk | hk <;> simp [hk])
  unfold emptiesIn expSegment
  simp only [List.filter_append, h1, h2]
  simp

theorem emitLoop_sliceRanges (g : Graph) (dim : Int) (dimV oneV eOut : Nat)
    (W : List GNode) :
    ∀ (inps : List Nat) (s0 : Int) (sV vc nc : Nat) (H : List GNode),
      W = H ++ emitLoop g dim dimV oneV eOut inps s0 sV vc nc →
      constLookupIn W sV = s0 →
      (∀ x ∈ H, x.out < vc) →
      (emitLoop g dim dimV oneV eOut inps s0 sV vc nc).filterMap (fun n =>
        if n.kind = NKind.atenSlice then
          some (constLookupIn W (n.ins.getD 2 0), constLookupIn W (n.ins.getD 3 0))
        else none) = catRanges s0 (inps.map (extentOf g dim)) := by
  intro inps
  induction inps with
  | nil => intro s0 sV vc nc H _ _ _; rfl
  | cons inp rest ih =>
    intro s0 sV vc nc H hW hs hH
    have hvc : constLookupIn W vc = s0 + extentOf g dim inp := by
      unfold constLookupIn
      rw [hW, List.find?_append,
        List.find?_eq_none.mpr (fun x hx => by simp [Nat.ne_of_lt (hH x hx)]),
        Option.none_or]
      simp only [emitLoop]
      rw [List.find?_cons_of_pos _ (by simp)]
      rfl
    simp only [emitLoop, List.filterMap_cons,
      show (NKind.primConstant = NKind.atenSlice) = False by simp,
      show (NKind.atenCopy = NKind.atenSlice) = False by simp,
      eq_self_iff_true, if_false, ite_false, ite_true]
    rw [show ((inp :: rest).map (extentOf g dim)) =
      extentOf g dim inp :: rest.map (extentOf g dim) from rfl]
    rw [show catRanges s0 (extentOf g dim inp :: rest.map (extentOf g dim)) =
      (s0, s0 + extentOf g dim inp) :: catRanges (s0 + extentOf g dim inp)
        (rest.map (extentOf g dim)) from rfl]
    congr 1
    · show (constLookupIn W sV, constLookupIn W vc) = (s0, s0 + extentOf g dim inp)
      rw [hs, hvc]
    · refine ih (s0 + extentOf g dim inp) vc (vc + 3) (nc + 3)
        (H ++ [{ nid := nc, kind := NKind.primConstant, ins := [], out := vc,
                 outTy := Ty.intTy, ival := some (s0 + extentOf g dim inp) },
               { nid := nc + 1, kind := NKind.atenSlice,
                 ins := [eOut, dimV, sV, vc, oneV], out := vc + 1,
                 outTy := Ty.tensor none, ival := none },
               { nid := nc + 2, kind := NKind.atenCopy, ins := [vc + 1, inp],
                 out := vc + 2, outTy := Ty.tensor none, ival := none }]) ?_ hvc ?_
      · rw [hW]
        simp only [emitLoop]
        simp
      · intro x hx
        rcases List.mem_append.mp hx with hx | hx
        · exact Nat.lt_trans (hH x hx) (by omega)
        · rcases List.mem_cons.mp hx with rfl | hx
          · show vc < vc + 3
            omega
          rcases List.mem_cons.mp hx with rfl | hx
          · show vc + 1 < vc + 3
            omega
          rcases List.mem_cons.mp hx with rfl | hx
          · show vc + 2 < vc + 3
            omega
          · cases hx

theorem startConst_lookup (g : Graph) (listIns : List Nat) (dim : Int)
    (dimV : Nat) (outSizes : List Int) (v0 n0 : Nat) :
    constLookupIn (expSegment g listIns dim dimV outSizes v0 n0)
      (v0 + 4 + outSizes.length) = 0 := by
  unfold constLookupIn expSegment
  simp only [List.find?_append]
  rw [List.find?_cons_of_neg _ (by simp; omega),
      List.find?_cons_of_neg _ (by simp; omega)]
  rw [show (List.find? (fun n => n.out = v0 + 4 + outSizes.length)
        (sizeConsts (v0 + 2) (n0 + 2) outSizes)) = none from
    List.find?_eq_none.mpr (fun x hx => by
      obtain ⟨_, _, k3, _⟩ := sizeConsts_mem outSizes (v0 + 2) (n0 + 2) x hx
      simp
      omega)]
  rw [List.find?_cons_of_neg _ (by simp),
      List.find?_cons_of_neg _ (by simp),
      List.find?_cons_of_pos _ (by simp)]
  rfl

theorem sliceRangesIn_expSegment (g : Graph) (listIns : List Nat) (dim : Int)
    (dimV : Nat) (outSizes : List Int) (v0 n0 : Nat) :
    sliceRangesIn (expSegment g listIns dim dimV outSizes v0 n0)
      = catRanges 0 (listIns.map (extentOf g dim)) := by
  have hkey := startConst_lookup g listIns dim dimV outSizes v0 n0
  have hnil : ([({ nid := n0, kind := NKind.primConstant, ins := [], out := v0, outTy := Ty.noneTy, ival := none } : GNode), { nid := n0 + 1, kind := NKind.primConstant, ins := [], out := v0 + 1, outTy := Ty.intTy, ival := some 1 }] ++
       sizeConsts (v0 + 2) (n0 + 2) outSizes ++
       ([{ nid := n0 + 2 + outSizes.length, kind := NKind.primListConstruct, ins := List.range' (v0 + 2) outSizes.length, out := v0 + 2 + outSizes.length, outTy := Ty.intListTy, ival := none }, { nid := n0 + 3 + outSizes.length, kind := NKind.atenEmpty, ins := [v0 + 2 + outSizes.length, v0, v0, v0, v0, v0], out := v0 + 3 + outSizes.length, outTy := Ty.tensor none, ival := none }, { nid := n0 + 4 + outSizes.length, kind := NKind.primConstant, ins := [], out := v0 + 4 + outSizes.length, outTy := Ty.intTy, ival := some 0 }] : List GNode)).filterMap
      (fun n => if n.kind = NKind.atenSlice then
          some (constLookupIn (expSegment g listIns dim dimV outSizes v0 n0) (n.ins.getD 2 0),
                constLookupIn (expSegment g listIns dim dimV outSizes v0 n0) (n.ins.getD 3 0))
        else none) = [] :=
    List.filterMap_eq_nil_iff.mpr (fun a ha => by
      rcases List.mem_append.mp ha with ha | ha
      · rcases List.mem_append.mp ha with ha | ha
        · rcases List.mem_cons.mp ha with rfl | ha
          · simp
          rcases List.mem_cons.mp ha with rfl | ha
          · simp
          · cases ha
        · have hk := (sizeConsts_mem outSizes (v0 + 2) (n0 + 2) a ha).1
          simp [hk]
      · rcases List.mem_cons.mp ha with rfl | ha
        · simp
        rcases List.mem_cons.mp ha with rfl | ha
        · simp
        rcases List.mem_cons.mp ha with rfl | ha
        · simp
        · cases ha)
  have hmain := emitLoop_sliceRanges g dim dimV (v0 + 1) (v0 + 3 + outSizes.length)
    (expSegment g listIns dim dimV outSizes v0 n0) listIns 0
    (v0 + 4 + outSizes.length) (v0 + 5 + outSizes.length) (n0 + 5 + outSizes.length)
    ([({ nid := n0, kind := NKind.primConstant, ins := [], out := v0, outTy := Ty.noneTy, ival := none } : GNode), { nid := n0 + 1, kind := NKind.primConstant, ins := [], out := v0 + 1, outTy := Ty.intTy, ival := some 1 }] ++
       sizeConsts (v0 + 2) (n0 + 2) outSizes ++
       ([{ nid := n0 + 2 + outSizes.length, kind := NKind.primListConstruct, ins := List.range' (v0 + 2) outSizes.length, out := v0 + 2 + outSizes.length, outTy := Ty.intListTy, ival := none }, { nid := n0 + 3 + outSizes.length, kind := NKind.atenEmpty, ins := [v0 + 2 + outSizes.length, v0, v0, v0, v0, v0], out := v0 + 3 + outSizes.length, outTy := Ty.tensor none, ival := none }, { nid := n0 + 4 + outSizes.length, kind := NKind.primConstant, ins := [], out := v0 + 4 + outSizes.length, outTy := Ty.intTy, ival := some 0 }] : List GNode))
    rfl hkey
    (fun x hx => by
      rcases List.mem_append.mp hx with hx | hx
      · rcases List.mem_append.mp hx with hx | hx
        · rcases List.mem_cons.mp hx with rfl | hx
          · show v0 < v0 + 5 + outSizes.length
            omega
          rcases List.mem_cons.mp hx with rfl | hx
          · show v0 + 1 < v0 + 5 + outSizes.length
            omega
          · cases hx
        · obtain ⟨_, _, k3, _⟩ := sizeConsts_mem outSizes (v0 + 2) (n0 + 2) x hx
          omega
      · rcases List.mem_cons.mp hx with rfl | hx
        · show v0 + 2 + outSizes.length < v0 + 5 + outSizes.length
          omega
        rcases List.mem_cons.mp hx with rfl | hx
        · show v0 + 3 + outSizes.length < v0 + 5 + outSizes.length
          omega
        rcases List.mem_cons.mp hx with rfl | hx
        · show v0 + 4 + outSizes.length < v0 + 5 + outSizes.length
          omega
        · cases hx)
  show (([({ nid := n0, kind := NKind.primConstant, ins := [], out := v0, outTy := Ty.noneTy, ival := none } : GNode), { nid := n0 + 1, kind := NKind.primConstant, ins := [], out := v0 + 1, outTy := Ty.intTy, ival := some 1 }] ++
       sizeConsts (v0 + 2) (n0 + 2) outSizes ++
       ([{ nid := n0 + 2 + outSizes.length, kind := NKind.primListConstruct, ins := List.range' (v0 + 2) outSizes.length, out := v0 + 2 + outSizes.length, outTy := Ty.intListTy, ival := none }, { nid := n0 + 3 + outSizes.length, kind := NKind.atenEmpty, ins := [v0 + 2 + outSizes.length, v0, v0, v0, v0, v0], out := v0 + 3 + outSizes.length, outTy := Ty.tensor none, ival := none }, { nid := n0 + 4 + outSizes.length, kind := NKind.primConstant, ins := [], out := v0 + 4 + outSizes.length, outTy := Ty.intTy, ival := some 0 }] : List GNode)) ++
      emitLoop g dim dimV (v0 + 1) (v0 + 3 + outSizes.length) listIns 0
        (v0 + 4 + outSizes.length) (v0 + 5 + outSizes.length)
        (n0 + 5 + outSizes.length)).filterMap
      (fun n => if n.kind = NKind.atenSlice then
          some (constLookupIn (expSegment g listIns dim dimV outSizes v0 n0) (n.ins.getD 2 0),
                constLookupIn (expSegment g listIns dim dimV outSizes v0 n0) (n.ins.getD 3 0))
        else none) = catRanges 0 (listIns.map (extentOf g dim))
  rw [List.filterMap_append, hnil, List.nil_append]
  exact hmain

/-! ## Arithmetic facts about the emitted slice ranges -/

theorem catRanges_chain :
    ∀ (es : List Int) (s : Int), isChainB s (catRanges s es) (s + es.sum) = true := by
  intro es
  induction es with
  | nil =>
    intro s
    simp [catRanges, isChainB]
  | cons e rest ih =>
    intro s
    simp only [catRanges, isChainB, List.sum_cons]
    rw [show s + (e + rest.sum) = s + e + rest.sum by ring, ih (s + e)]
    simp

theorem catRanges_mem :
    ∀ (es : List Int) (s : Int), (∀ e ∈ es, 0 ≤ e) →
      ∀ r ∈ catRanges s es, s ≤ r.1 ∧ r.1 ≤ r.2 := by
  intro es
  induction es with
  | nil => intro s _ r hr; cases hr
  | cons e rest ih =>
    intro s hnn r hr
    simp only [catRanges] at hr
    have he : 0 ≤ e := hnn e (List.mem_cons_self _ _)
    rcases List.mem_cons.mp hr with rfl | hr
    · exact ⟨le_refl s, by show s ≤ s + e; omega⟩
    · have hm := ih (s + e) (fun x hx => hnn x (List.mem_cons_of_mem _ hx)) r hr
      exact ⟨by omega, hm.2⟩

theorem catRanges_pairwise :
    ∀ (es : List Int) (s : Int), (∀ e ∈ es, 0 ≤ e) →
      List.Pairwise (fun a b : Int × Int => a.2 ≤ b.1) (catRanges s es) := by
  intro es
  induction es with
  | nil => intro s _; simp [catRanges]
  | cons e rest ih =>
    intro s hnn
    simp only [catRanges]
    refine List.Pairwise.cons ?_ (ih (s + e) (fun x hx => hnn x (List.mem_cons_of_mem _ hx)))
    intro b hb
    exact (catRanges_mem rest (s + e)
      (fun x hx => hnn x (List.mem_cons_of_mem _ hx)) b hb).1

theorem catRanges_length :
    ∀ (es : List Int) (s : Int), (catRanges s es).length = es.length := by
  intro es
  induction es with
  | nil => intro s; rfl
  | cons e rest ih =>
    intro s
    simp only [catRanges, List.length_cons, ih]

/-! ## The allocation's size constants resolve to the output shape -/

theorem sizeConsts_find? :
    ∀ (sizes : List Int) (vc nc j : Nat), j < sizes.length →
      (sizeConsts vc nc sizes).find? (fun n => n.out = vc + j)
        = some { nid := nc + j, kind := NKind.primConstant, ins := [], out := vc + j,
                 outTy := Ty.intTy, ival := some (sizes.getD j 0) } := by
  intro sizes
  induction sizes with
  | nil => intro vc nc j hj; simp at hj
  | cons s rest ih =>
    intro vc nc j hj
    cases j with
    | zero =>
      simp only [sizeConsts]
      rw [List.find?_cons_of_pos _ (by simp)]
      simp
    | succ j' =>
      simp only [sizeConsts]
      rw [List.find?_cons_of_neg _ (by simp)]
      simp only [List.length_cons] at hj
      rw [show vc + (j' + 1) = vc + 1 + j' by omega,
          show nc + (j' + 1) = nc + 1 + j' by omega,
          show (s :: rest).getD (j' + 1) 0 = rest.getD j' 0 from rfl]
      exact ih (vc + 1) (nc + 1) j' (by omega)

theorem sizeConst_lookup_seg (g : Graph) (listIns : List Nat) (dim : Int)
    (dimV : Nat) (outSizes : List Int) (v0 n0 j : Nat) (hj : j < outSizes.length) :
    constLookupIn (expSegment g listIns dim dimV outSizes v0 n0) (v0 + 2 + j)
      = outSizes.getD j 0 := by
  unfold constLookupIn expSegment
  simp only [List.find?_append]
  rw [List.find?_cons_of_neg _ (by simp; omega),
      List.find?_cons_of_neg _ (by simp; omega)]
  rw [sizeConsts_find? outSizes (v0 + 2) (n0 + 2) j hj]
  rfl

theorem map_range'_getD (f : Nat → Int) :
    ∀ (sizes : List Int) (vc : Nat),
      (∀ j, j < sizes.length → f (vc + j) = sizes.getD j 0) →
      (List.range' vc sizes.length).map f = sizes := by
  intro sizes
  induction sizes with
  | nil => intro vc _; rfl
  | cons s rest ih =>
    intro vc h
    simp only [List.length_cons, List.range'_succ, List.map_cons]
    congr 1
    · have h0 := h 0 (by simp)
      simpa using h0
    · refine ih (vc + 1) ?_
      intro j hj
      have hj1 := h (j + 1) (by simp; omega)
      rw [show vc + (j + 1) = vc + 1 + j by omega] at hj1
      simpa using hj1

theorem sizeList_lookup_seg (g : Graph) (listIns : List Nat) (dim : Int)
    (dimV : Nat) (outSizes : List Int) (v0 n0 : Nat) :
    (List.range' (v0 + 2) outSizes.length).map
      (constLookupIn (expSegment g listIns dim dimV outSizes v0 n0)) = outSizes :=
  map_range'_getD _ outSizes (v0 + 2)
    (fun j hj => sizeConst_lookup_seg g listIns dim dimV outSizes v0 n0 j hj)

/-! ## Cleanup-phase lemmas: rewiring kills all uses of the old result -/

theorem count_map_subst_eq_zero (v w : Nat) (hvw : v ≠ w) (l : List Nat) :
    (l.map (fun x => if x = v then w else x)).count v = 0 := by
  rw [List.count_eq_zero]
  intro hmem
  obtain ⟨x, _, hx⟩ := List.mem_map.mp hmem
  by_cases hxv : x = v
  · rw [if_pos hxv] at hx
    exact hvw hx.symm
  · rw [if_neg hxv] at hx
    exact hxv hx

theorem usesOf_replaceAllUses_self (g : Graph) (v w : Nat) (hvw : v ≠ w) :
    (g.replaceAllUsesWith v w).usesOf v = 0 := by
  have h1 : ((g.replaceAllUsesWith v w).nodes.map (fun n => n.ins.count v)).sum = 0 := by
    apply List.sum_eq_zero
    intro x hx
    obtain ⟨n, hn, rfl⟩ := List.mem_map.mp hx
    have hn2 : n ∈ g.nodes.map (fun n =>
        { n with ins := n.ins.map (fun x => if x = v then w else x) }) := hn
    obtain ⟨n0, _, rfl⟩ := List.mem_map.mp hn2
    exact count_map_subst_eq_zero v w hvw n0.ins
  have h2 : (g.replaceAllUsesWith v w).gouts.count v = 0 :=
    count_map_subst_eq_zero v w hvw g.gouts
  show ((g.replaceAllUsesWith v w).nodes.map (fun n => n.ins.count v)).sum
      + (g.replaceAllUsesWith v w).gouts.count v = 0
  rw [h1, h2]

theorem usesOf_destroy_zero {g : Graph} {v : Nat} (h : g.usesOf v = 0) (i : Nat) :
    (g.destroyNode i).usesOf v = 0 := by
  unfold Graph.usesOf at h
  have hsum : (g.nodes.map (fun n => n.ins.count v)).sum = 0 := by omega
  have hgout : g.gouts.count v = 0 := by omega
  show ((g.nodes.filter (fun n => n.nid ≠ i)).map (fun n => n.ins.count v)).sum
      + g.gouts.count v = 0
  rw [hgout, List.sum_eq_zero]
  intro x hx
  obtain ⟨n, hn, rfl⟩ := List.mem_map.mp hx
  exact List.sum_eq_zero_iff.mp hsum _
    (List.mem_map.mpr ⟨n, List.mem_of_mem_filter hn, rfl⟩)

theorem usesOf_removeCat_zero {g : Graph} {v : Nat} (h : g.usesOf v = 0) (i : Nat) :
    (removeCatNode g i).usesOf v = 0 := by
  unfold removeCatNode
  cases hf : g.findNode i with
  | none => exact h
  | some n =>
    dsimp only
    split
    · exact usesOf_destroy_zero h i
    · cases hp : (g.destroyNode i).producer (n.ins.headD 0) with
      | none => exact usesOf_destroy_zero h i
      | some ln => exact usesOf_destroy_zero (usesOf_destroy_zero h i) ln.nid

theorem gouts_removeCat (g : Graph) (i : Nat) :
    (removeCatNode g i).gouts = g.gouts := by
  unfold removeCatNode
  cases hf : g.findNode i with
  | none => rfl
  | some n =>
    dsimp only
    split
    · rfl
    · cases hp : (g.destroyNode i).producer (n.ins.headD 0) with
      | none => rfl
      | some ln => rfl

theorem findNode_removeCat_self (g : Graph) (i : Nat) :
    (removeCatNode g i).findNode i = none := by
  unfold removeCatNode
  cases hf : g.findNode i with
  | none => exact hf
  | some n =>
    dsimp only
    split
    · exact findNode_destroy_self g i
    · cases hp : (g.destroyNode i).producer (n.ins.headD 0) with
      | none => exact findNode_destroy_self g i
      | some ln => exact findNode_none_destroy (findNode_destroy_self g i)

/-! ## The success path of `expandCat` -/

theorem expandCat_success (hw : Nat → Bool) (g : Graph) (catId : Nat)
    (node listN : GNode) (lv dv : Nat) (dim : Int) (outSizes : List Int)
    (hfind : g.findNode catId = some node)
    (hins : node.ins = [lv, dv])
    (hhw : hw lv = false)
    (hprod : g.producer lv = some listN)
    (hlk : listN.kind = NKind.primListConstruct)
    (hshapes : allShapesKnown g node = true)
    (hops : listN.ins.all (fun v => shapeIsKnown g v) = true)
    (hdim : constantAs g dv = some dim)
    (hty : g.typeOf node.out = Ty.tensor (some outSizes)) :
    expandCat hw (expInit g) catId =
      { g := { g.insertBefore catId
                 (expSegment g listN.ins dim dv outSizes g.freshV g.freshN) with
               freshV := g.freshV + 5 + outSizes.length + 3 * listN.ins.length,
               freshN := g.freshN + 5 + outSizes.length + 3 * listN.ins.length },
        toRemove := [catId],
        replUses := [(node.out, g.freshV + 3 + outSizes.length)],
        copies := (List.range listN.ins.length).map
          (fun j => g.freshN + 5 + outSizes.length + 3 * j + 2),
        slices := (List.range listN.ins.length).map
          (fun j => g.freshN + 5 + outSizes.length + 3 * j + 1) } := by
  unfold expandCat expInit
  dsimp only
  rw [hfind]
  dsimp only
  rw [hins]
  simp only [List.headD_cons, List.getD_cons_succ, List.getD_cons_zero]
  rw [if_neg (by simp [hhw])]
  rw [hprod]
  dsimp only
  rw [if_neg (by simp [hlk]), if_neg (by simp [hshapes]), if_neg (by simp [hops])]
  rw [hdim]
  dsimp only
  rw [hty]
  dsimp only
  simp only [List.nil_append]

/-- C6.  For an eligible concatenation node (operand list with no writers and
produced by a `prim::ListConstruct`, all operand and output shapes known,
constant integer axis), `expandCat` inserts the emitted segment immediately
before the node; that segment contains exactly one allocation (`aten::empty`)
whose size-list constants are exactly the node's known output shape, `k`
slices (one per operand, in order) whose `[start, end)` ranges are exactly
the running-offset ranges of the operand extents — starting at 0, contiguous,
non-overlapping, and ending at the sum of the operand axis extents — and `k`
copies writing each operand into its corresponding slice; cleanup then
rewires every original use of the concatenation's result (including block
outputs) to the allocation's output, removes the concatenation node, and
leaves no use of the old result value. -/
theorem claim6_expansion_structure (hw : Nat → Bool) (g : Graph) (catId : Nat)
    (node listN : GNode) (lv dv : Nat) (dim : Int) (outSizes : List Int)
    (hfind : g.findNode catId = some node)
    (_hkind : node.kind = NKind.atenCat)
    (hins : node.ins = [lv, dv])
    (hhw : hw lv = false)
    (hprod : g.producer lv = some listN)
    (hlk : listN.kind = NKind.primListConstruct)
    (hshapes : allShapesKnown g node = true)
    (hops : listN.ins.all (fun v => shapeIsKnown g v) = true)
    (hdim : constantAs g dv = some dim)
    (hty : g.typeOf node.out = Ty.tensor (some outSizes))
    (hvout : node.out < g.freshV)
    (hexts : ∀ v ∈ listN.ins, 0 ≤ extentOf g dim v) :
    (expandCat hw (expInit g) catId).g.nodes
        = insertListBefore g.nodes catId
            (expSegment g listN.ins dim dv outSizes g.freshV g.freshN) ∧
    emptiesIn (expSegment g listN.ins dim dv outSizes g.freshV g.freshN)
        = [{ nid := g.freshN + 3 + outSizes.length, kind := NKind.atenEmpty,
             ins := [g.freshV + 2 + outSizes.length, g.freshV, g.freshV, g.freshV,
                     g.freshV, g.freshV],
             out := g.freshV + 3 + outSizes.length,
             outTy := Ty.tensor none, ival := none }] ∧
    (List.range' (g.freshV + 2) outSizes.length).map
        (constLookupIn (expSegment g listN.ins dim dv outSizes g.freshV g.freshN))
        = outSizes ∧
    sliceRangesIn (expSegment g listN.ins dim dv outSizes g.freshV g.freshN)
        = catRanges 0 (listN.ins.map (extentOf g dim)) ∧
    (sliceRangesIn (expSegment g listN.ins dim dv outSizes g.freshV g.freshN)).length
        = listN.ins.length ∧
    isChainB 0 (sliceRangesIn (expSegment g listN.ins dim dv outSizes g.freshV g.freshN))
        ((listN.ins.map (extentOf g dim)).sum) = true ∧
    List.Pairwise (fun a b : Int × Int => a.2 ≤ b.1)
        (sliceRangesIn (expSegment g listN.ins dim dv outSizes g.freshV g.freshN)) ∧
    copySrcsIn (expSegment g listN.ins dim dv outSizes g.freshV g.freshN) = listN.ins ∧
    copyDstsIn (expSegment g listN.ins dim dv outSizes g.freshV g.freshN)
        = sliceOutsIn (expSegment g listN.ins dim dv outSizes g.freshV g.freshN) ∧
    (cleanupExpanded (expandCat hw (expInit g) catId)).gouts
        = g.gouts.map (fun v =>
            if v = node.out then g.freshV + 3 + outSizes.length else v) ∧
    (cleanupExpanded (expandCat hw (expInit g) catId)).findNode catId = none ∧
    (cleanupExpanded (expandCat hw (expInit g) catId)).usesOf node.out = 0 := by
  have key := expandCat_success hw g catId node listN lv dv dim outSizes
    hfind hins hhw hprod hlk hshapes hops hdim hty
  have hslices := sliceRangesIn_expSegment g listN.ins dim dv outSizes g.freshV g.freshN
  have hvne : node.out ≠ g.freshV + 3 + outSizes.length := by omega
  have hclean : cleanupExpanded (expandCat hw (expInit g) catId)
      = removeCatNode
          ((expandCat hw (expInit g) catId).g.replaceAllUsesWith node.out
            (g.freshV + 3 + outSizes.length)) catId := by
    rw [key]
    rfl
  have hexts' : ∀ e ∈ listN.ins.map (extentOf g dim), 0 ≤ e := by
    intro e he
    obtain ⟨v, hv, rfl⟩ := List.mem_map.mp he
    exact hexts v hv
  refine ⟨by rw [key]; rfl, emptiesIn_expSegment g listN.ins dim dv outSizes g.freshV g.freshN,
    sizeList_lookup_seg g listN.ins dim dv outSizes g.freshV g.freshN,
    hslices, ?_, ?_, ?_,
    copySrcsIn_expSegment g listN.ins dim dv outSizes g.freshV g.freshN,
    copyDsts_eq_sliceOuts_expSegment g listN.ins dim dv outSizes g.freshV g.freshN,
    ?_, ?_, ?_⟩
  · rw [hslices, catRanges_length, List.length_map]
  · rw [hslices]
    have hc := catRanges_chain (listN.ins.map (extentOf g dim)) 0
    rwa [zero_add] at hc
  · rw [hslices]
    exact catRanges_pairwise (listN.ins.map (extentOf g dim)) 0 hexts'
  · rw [hclean, gouts_removeCat, key]
    rfl
  · rw [hclean]
    exact findNode_removeCat_self _ _
  · rw [hclean]
    exact usesOf_removeCat_zero
      (usesOf_replaceAllUses_self _ node.out (g.freshV + 3 + outSizes.length) hvne) catId

/-- Witness for C6 on `gEligibleCat`: the `aten::cat` node 12 (operands
`%1, %2, %3` of shapes `[2,3]`, `[2,4]`, `[2,5]`, axis 1, output shape
`[2,12]`) is eligible, its emitted slice ranges are the contiguous runs of
the operand extents, and after cleanup the `cat` node is gone. -/
theorem claim6_expansion_structure_witness :
    (∀ v ∈ [1, 2, 3], 0 ≤ extentOf gEligibleCat 1 v) ∧
    sliceRangesIn (expSegment gEligibleCat [1, 2, 3] 1 9 [2, 12] 100 200)
      = catRanges 0 ([1, 2, 3].map (extentOf gEligibleCat 1)) ∧
    (cleanupExpanded (expandCat noWriters (expInit gEligibleCat) 12)).findNode 12
      = none :=
  ⟨by decide,
   (claim6_expansion_structure noWriters gEligibleCat 12
      { nid := 12, kind := NKind.atenCat, ins := [30, 9], out := 31,
        outTy := Ty.tensor (some [2, 12]), ival := none }
      { nid := 11, kind := NKind.primListConstruct, ins := [1, 2, 3], out := 30,
        outTy := Ty.tensorListTy, ival := none }
      30 9 1 [2, 12] (by decide) (by decide) (by decide) (by decide) (by decide)
      (by decide) (by decide) (by decide) (by decide) (by decide) (by decide)
      (by decide)).2.2.2.1,
   (claim6_expansion_structure noWriters gEligibleCat 12
      { nid := 12, kind := NKind.atenCat, ins := [30, 9], out := 31,
        outTy := Ty.tensor (some [2, 12]), ival := none }
      { nid := 11, kind := NKind.primListConstruct, ins := [1, 2, 3], out := 30,
        outTy := Ty.tensorListTy, ival := none }
      30 9 1 [2, 12] (by decide) (by decide) (by decide) (by decide) (by decide)
      (by decide) (by decide) (by decide) (by decide) (by decide) (by decide)
      (by decide)).2.2.2.2.2.2.2.2.2.2.1⟩
